import Mathlib

/-!
Verification of the path-filtering, traversal and comment-stripping core of the
file-copy-project repository.

The development shallowly embeds the three source files:
* `Scanner`  — `src/scanner.ts`   (blacklist filter and the recursive directory scan)
* `Index`    — `src/index.ts`     (file-list exclusion filter and the TypeScript
                                   comment-removal state machine)
* `Stripper` — the unnamed comment-stripping module (`stripComments`,
                                   `stripSqlComments`, `removeExcessiveEmptyLines`)

JavaScript strings are modelled as Lean `String`s (with the core logic running on
their `List Char` data), JavaScript exceptions as `Except String`, and the two
third-party libraries (`decomment`, `strip-json-comments`) as parameters of type
`String → Except String String` since their code is not part of the repository.
-/

namespace JsStr

/-- `startsL pat l` : `l` starts with `pat` (JavaScript `String.prototype.startsWith`). -/
def startsL : List Char → List Char → Bool
  | [], _ => true
  | _ :: _, [] => false
  | a :: as, b :: bs => a = b && startsL as bs

/-- `endsL pat l` : `l` ends with `pat` (JavaScript `String.prototype.endsWith`). -/
def endsL (pat l : List Char) : Bool := startsL pat.reverse l.reverse

/-- Split a character list on a separator character, JavaScript
`String.prototype.split` semantics: `""` splits to `[""]`, adjacent separators
produce empty pieces, pieces never contain the separator. -/
def splitOnChar (sep : Char) : List Char → List (List Char)
  | [] => [[]]
  | c :: rest =>
    let r := splitOnChar sep rest
    if c = sep then [] :: r
    else
      match r with
      | [] => [[c]]
      | h :: t => (c :: h) :: t

/-- Join pieces with a separator character (inverse of `splitOnChar`). -/
def joinChar (sep : Char) : List (List Char) → List Char
  | [] => []
  | [l] => l
  | l :: l' :: ls => l ++ sep :: joinChar sep (l' :: ls)

/-- Last element of a list of strings, or `""` (JavaScript `segs[segs.length - 1]`
on a non-empty array). -/
def lastD (l : List String) : String :=
  match l.getLast? with
  | some s => s
  | none => ""

end JsStr

namespace Scanner

open JsStr

/-- `currentPath.replace(/\\/g, '/')` — normalize separators to forward slashes. -/
def normSlashes (s : String) : String :=
  String.mk (s.data.map fun c => if c = '\\' then '/' else c)

/-- `item.replace(/^\/+|\/+$/g, '')` — strip leading and trailing slashes. -/
def stripEdgeSlashes (s : String) : String :=
  String.mk (((s.data.dropWhile (· = '/')).reverse.dropWhile (· = '/')).reverse)

/-- The `knownDirectories` array of `isBlacklisted`. -/
def knownDirectories : List String :=
  ["node_modules", ".git", ".vscode", "dist", "build", "coverage", "src", "test"]

/-- The body of the `for (const item of blacklist)` loop of `isBlacklisted`
(`src/scanner.ts` lines 66-103): `true` iff this blacklist item excludes the path. -/
def blItemMatches (normalizedPath : String) (pathSegments : List String)
    (item : String) : Bool :=
  let normalizedItem := stripEdgeSlashes (normSlashes item)
  if normalizedPath = normalizedItem then true
  else
    let endsWithSlash := endsL ['/'] normalizedItem.data
    let isKnownDirectory := knownDirectories.contains normalizedItem
    let isHiddenDir := startsL ['.'] normalizedItem.data
        && !(normalizedItem.data.drop 1).any (· = '.')
    let hasNoExtension := !normalizedItem.data.any (· = '.')
    let isDirectory := endsWithSlash || isKnownDirectory || isHiddenDir || hasNoExtension
    if isDirectory then
      decide (normalizedPath = normalizedItem)
        || startsL (normalizedItem.data ++ ['/']) normalizedPath.data
        || pathSegments.contains normalizedItem
    else
      lastD pathSegments = normalizedItem

/-- `isBlacklisted(currentPath, blacklist)` from `src/scanner.ts`:
returns `true` as soon as some blacklist item matches. -/
def isBlacklisted (currentPath : String) (blacklist : List String) : Bool :=
  let normalizedPath := normSlashes currentPath
  let pathSegments := (splitOnChar '/' normalizedPath.data).map String.mk
  blacklist.any (blItemMatches normalizedPath pathSegments)

end Scanner

namespace Index

open JsStr

/-- Node's `path.basename` on a forward-slash path: trailing separators are
ignored, then the part after the last separator is returned. -/
def posixBasename (s : String) : String :=
  String.mk (((s.data.reverse.dropWhile (· = '/')).takeWhile (· ≠ '/')).reverse)

/-- Abstract syntax of the regular-expression fragment that
`shouldExcludeFile` can build (`new RegExp`, anchored with `^...$`,
on a pattern whose only escapes are the `\.` introduced by the code's
dot-escaping; `^...$` anchoring is modelled by `rmatch` being a full match). -/
inductive Regex where
  | fail
  | epsilon
  | lit (c : Char)
  | anyChar
  | seq (r₁ r₂ : Regex)
  | alt (r₁ r₂ : Regex)
  | star (r : Regex)
deriving DecidableEq, Repr

/-- The regex matches the empty string. -/
def Regex.nullable : Regex → Bool
  | .fail => false
  | .epsilon => true
  | .lit _ => false
  | .anyChar => false
  | .seq r₁ r₂ => r₁.nullable && r₂.nullable
  | .alt r₁ r₂ => r₁.nullable || r₂.nullable
  | .star _ => true

/-- Brzozowski derivative of a regex with respect to one character. -/
def Regex.deriv : Regex → Char → Regex
  | .fail, _ => .fail
  | .epsilon, _ => .fail
  | .lit c', c => if c = c' then .epsilon else .fail
  | .anyChar, _ => .epsilon
  | .seq r₁ r₂, c =>
    if r₁.nullable then .alt (.seq (r₁.deriv c) r₂) (r₂.deriv c)
    else .seq (r₁.deriv c) r₂
  | .alt r₁ r₂, c => .alt (r₁.deriv c) (r₂.deriv c)
  | .star r, c => .seq (r.deriv c) (.star r)

/-- Full (anchored) match of a regex against a string. -/
def rmatch (r : Regex) (s : String) : Bool :=
  (s.data.foldl Regex.deriv r).nullable

/-- Sequence a reversed list of atoms (`atoms` holds the last atom first). -/
def seqOfRev (atoms : List Regex) : Regex :=
  atoms.reverse.foldl Regex.seq Regex.epsilon

/-- Combine collected alternatives (stored in reverse) with the final branch. -/
def altsOf (alts : List Regex) (cur : Regex) : Regex :=
  alts.foldl (fun acc a => Regex.alt a acc) cur

/-- Recursive-descent (single pass, explicit group stack) parser for the
ECMAScript regex fragment reachable from `shouldExcludeFile`'s patterns:
literals, `\`-escapes, `.`, the `*` quantifier (not allowed at the start of an
alternative or doubled, "nothing to repeat"), groups `(...)` (unterminated or
unmatched parentheses are syntax errors, as for `new RegExp`) and `|`.
Parse failure models the `SyntaxError` thrown by `new RegExp`. -/
def parseRegexAux : List Char → List Regex → List Regex →
    List (List Regex × List Regex) → Except String Regex
  | [], seqAcc, alts, stack =>
    if stack.isEmpty then .ok (altsOf alts (seqOfRev seqAcc))
    else .error "Invalid regular expression: Unterminated group"
  | '\\' :: [], _, _, _ =>
    .error "Invalid regular expression: \\ at end of pattern"
  | '\\' :: c :: rest, seqAcc, alts, stack =>
    parseRegexAux rest (Regex.lit c :: seqAcc) alts stack
  | '.' :: rest, seqAcc, alts, stack =>
    parseRegexAux rest (Regex.anyChar :: seqAcc) alts stack
  | '*' :: rest, seqAcc, alts, stack =>
    match seqAcc with
    | [] => .error "Invalid regular expression: Nothing to repeat"
    | Regex.star _ :: _ => .error "Invalid regular expression: Nothing to repeat"
    | a :: as => parseRegexAux rest (Regex.star a :: as) alts stack
  | '(' :: rest, seqAcc, alts, stack =>
    parseRegexAux rest [] [] ((seqAcc, alts) :: stack)
  | ')' :: rest, seqAcc, alts, stack =>
    match stack with
    | [] => .error "Invalid regular expression: Unmatched close parenthesis"
    | (seqAcc₀, alts₀) :: stack' =>
      parseRegexAux rest (altsOf alts (seqOfRev seqAcc) :: seqAcc₀) alts₀ stack'
  | '|' :: rest, seqAcc, alts, stack =>
    parseRegexAux rest [] (seqOfRev seqAcc :: alts) stack
  | c :: rest, seqAcc, alts, stack =>
    parseRegexAux rest (Regex.lit c :: seqAcc) alts stack

/-- `new RegExp(...)` construction for `shouldExcludeFile`'s pattern string. -/
def parseRegex (pattern : String) : Except String Regex :=
  parseRegexAux pattern.data [] [] []

/-- `.replace(/\./g, '\\.')` — escape dots. -/
def escapeDots (s : String) : String :=
  String.mk (s.data.foldr (fun c acc => if c = '.' then '\\' :: '.' :: acc else c :: acc) [])

/-- `.replace(/\*/g, '.*')` — replace each `*` by `.*`. -/
def starToDotStar (s : String) : String :=
  String.mk (s.data.foldr (fun c acc => if c = '*' then '.' :: '*' :: acc else c :: acc) [])

/-- `filePath.replace(/\\/g, '/')` (same normalization as the scanner's). -/
def normSlashes (s : String) : String :=
  String.mk (s.data.map fun c => if c = '\\' then '/' else c)

/-- The `for (const pattern of patterns)` loop of `shouldExcludeFile`
(`src/index.ts` lines 313-339).  The `Except` models the `SyntaxError`
that `new RegExp` throws on an invalid compiled pattern. -/
def shouldExcludeGo (normalizedPath fileName : String) :
    List String → Except String Bool
  | [] => .ok false
  | pattern :: rest =>
    let normalizedPattern := normSlashes pattern
    if normalizedPath = normalizedPattern
        || endsL ('/' :: normalizedPattern.data) normalizedPath.data then .ok true
    else if fileName = normalizedPattern then .ok true
    else if normalizedPattern.data.any (· = '*') then
      let regexPattern := starToDotStar (escapeDots normalizedPattern)
      match parseRegex regexPattern with
      | .error e => .error e
      | .ok regex =>
        if rmatch regex fileName then .ok true
        else shouldExcludeGo normalizedPath fileName rest
    else shouldExcludeGo normalizedPath fileName rest

/-- `shouldExcludeFile(filePath, patterns)` from `src/index.ts`. -/
def shouldExcludeFile (filePath : String) (patterns : List String) :
    Except String Bool :=
  let normalizedPath := normSlashes filePath
  let fileName := posixBasename normalizedPath
  shouldExcludeGo normalizedPath fileName patterns

end Index

namespace JsStr

/-- Lower-case a string character-wise (JavaScript `toLowerCase` on the
ASCII alphabet actually occurring in the scanner's lists). -/
def toLowerStr (s : String) : String := String.mk (s.data.map Char.toLower)

/-- Node's `path.basename` (forward-slash form): part after the last
separator, ignoring trailing separators. -/
def posixBasename (s : String) : String :=
  String.mk (((s.data.reverse.dropWhile (· = '/')).takeWhile (· ≠ '/')).reverse)

/-- Node's `path.extname` (forward-slash form, ordinary file names): the part
of the basename from its last `.`, or `""` when there is no dot or the only
dot is the leading one of a dotfile. -/
def extname (s : String) : String :=
  let b := (s.data.reverse.takeWhile (· ≠ '/')).reverse
  let afterDot := b.reverse.takeWhile (· ≠ '.')
  if afterDot.length = b.length then ""
  else if afterDot.length + 1 = b.length then ""
  else String.mk ('.' :: afterDot.reverse)

end JsStr

namespace Stripper

open JsStr

/-- A line consisting only of horizontal whitespace becomes empty
(`content.replace(/^[ \t]+$/gm, '')`, applied per `\n`-delimited line). -/
def cleanWsLine (l : List Char) : List Char :=
  if !l.isEmpty && l.all (fun c => c = ' ' || c = '\t') then [] else l

/-- First replacement of `removeExcessiveEmptyLines`. -/
def removeWsOnlyLines (l : List Char) : List Char :=
  joinChar '\n' ((splitOnChar '\n' l).map cleanWsLine)

/-- Greedily count leading `(\r?\n)` units, returning the count and the rest. -/
def countNLRun : List Char → Nat × List Char
  | [] => (0, [])
  | c :: rest =>
    if c = '\n' then
      let p := countNLRun rest
      (p.1 + 1, p.2)
    else if c = '\r' then
      match rest with
      | [] => (0, c :: rest)
      | d :: rest' =>
        if d = '\n' then
          let p := countNLRun rest'
          (p.1 + 1, p.2)
        else (0, c :: rest)
    else (0, c :: rest)

/-- Left-to-right scan of `content.replace(/(\r?\n){3,}/g, '\n\n')`: a maximal
run of at least three newline units is replaced by two `\n`s, anything else is
copied.  The fuel argument (initially the length of the list) only makes the
recursion structural; every step consumes at least one character. -/
def collapseAux : Nat → List Char → List Char
  | 0, _ => []
  | fuel + 1, l =>
    let p := countNLRun l
    if 3 ≤ p.1 then '\n' :: '\n' :: collapseAux fuel p.2
    else
      match l with
      | [] => []
      | c :: t => c :: collapseAux fuel t

/-- Second replacement of `removeExcessiveEmptyLines`. -/
def collapseNewlineRuns (l : List Char) : List Char := collapseAux l.length l

/-- `removeExcessiveEmptyLines(content)` from the comment-stripping module:
whitespace-only lines are first emptied, then runs of three or more newline
units collapse to a single blank line. -/
def removeExcessiveEmptyLines (s : String) : String :=
  String.mk (collapseNewlineRuns (removeWsOnlyLines s.data))

/-- The `--[^\n]*` to `''` global replacement of `stripSqlComments`: drop from
each `--` to the end of its line (fuelled scan; every step consumes at least
one character). -/
def sqlLineAux : Nat → List Char → List Char
  | 0, _ => []
  | _, [] => []
  | fuel + 1, '-' :: '-' :: rest => sqlLineAux fuel (rest.dropWhile (· ≠ '\n'))
  | fuel + 1, c :: rest => c :: sqlLineAux fuel rest

/-- Remainder after the first `*/` of the list, if any. -/
def findCloseSplit : List Char → Option (List Char)
  | [] => none
  | '*' :: '/' :: rest => some rest
  | _ :: rest => findCloseSplit rest

/-- `result.replace(/\/\*[\s\S]*?\*\//g, '')`: each `/*` with a later `*/` is
removed through the nearest `*/` (non-greedy); a `/*` with no closing `*/`
does not match and stays (fuelled scan). -/
def sqlBlockAux : Nat → List Char → List Char
  | 0, _ => []
  | _, [] => []
  | fuel + 1, '/' :: '*' :: rest =>
    match findCloseSplit rest with
    | some rest' => sqlBlockAux fuel rest'
    | none => '/' :: sqlBlockAux fuel ('*' :: rest)
  | fuel + 1, c :: rest => c :: sqlBlockAux fuel rest

/-- `stripSqlComments(content)` from the comment-stripping module. -/
def stripSqlComments (content : String) : String :=
  let r1 := String.mk (sqlLineAux content.data.length content.data)
  let r2 := String.mk (sqlBlockAux r1.data.length r1.data)
  removeExcessiveEmptyLines r2

/-- `FileType` enum of the comment-stripping module. -/
inductive FileType where
  | JAVASCRIPT | TYPESCRIPT | JAVA | CSHARP | PHP | SQL | JSON | UNSUPPORTED
deriving DecidableEq, Repr

/-- The `switch` body of `stripComments` inside its `try` block, before the
final `removeExcessiveEmptyLines`.  The two third-party strippers `decomment`
and `strip-json-comments` are not part of the repository, so they are passed
in as arbitrary fallible string transformers. -/
def stripBody (decomment stripJsonComments : String → Except String String)
    (content : String) : FileType → Except String String
  | .JAVASCRIPT | .TYPESCRIPT | .JAVA | .CSHARP | .PHP =>
    (decomment content).map removeExcessiveEmptyLines
  | .SQL => .ok (stripSqlComments content)
  | .JSON => (stripJsonComments content).map removeExcessiveEmptyLines
  | .UNSUPPORTED => .ok content

/-- `stripComments(content, fileType)` from the comment-stripping module: the
`try`/`catch` returning the original content on any internal exception. -/
def stripComments (decomment stripJsonComments : String → Except String String)
    (content : String) (fileType : FileType) : String :=
  match stripBody decomment stripJsonComments content fileType with
  | .ok r => r
  | .error _ => content

end Stripper

namespace Scanner

open JsStr

/-- `isEnvFile(filePath)` from `src/scanner.ts`. -/
def isEnvFile (filePath : String) : Bool :=
  let fileName := toLowerStr (posixBasename filePath)
  fileName = ".env" || startsL (".env.").data fileName.data
    || endsL (".env").data fileName.data

/-- `textExtensions` array of `isTextFile`. -/
def textExtensions : List String :=
  [".txt", ".md", ".js", ".ts", ".jsx", ".tsx", ".css", ".scss", ".html", ".htm",
   ".xml", ".json", ".yaml", ".yml", ".csv", ".ini", ".conf", ".py", ".java",
   ".c", ".cpp", ".h", ".hpp", ".cs", ".go", ".rb", ".php", ".pl", ".sh", ".bat",
   ".ps1", ".sql", ".gitignore", ".env", ".config", ".toml", ".dockerfile"]

/-- `textFilenames` array of `isTextFile`. -/
def textFilenames : List String :=
  ["dockerfile", "makefile", "jenkinsfile", "vagrantfile", "readme", "license",
   "gemfile", "rakefile", "procfile", ".gitignore", ".dockerignore", ".npmignore"]

/-- `isTextFile(filePath)` from `src/scanner.ts`. -/
def isTextFile (filePath : String) : Bool :=
  let ext := toLowerStr (extname filePath)
  let filename := toLowerStr (posixBasename filePath)
  textExtensions.contains ext || textFilenames.contains filename

/-- The `stats` record threaded through `scanDirectory`. -/
structure ScanStats where
  dirs : Nat
  files : Nat
  skipped : Nat
  envFiles : Nat
deriving DecidableEq, Repr

/-- Observable behaviour of one loop iteration of `scanDirectory`:
`enumerate` marks the iteration reaching an entry (before the blacklist
check); the remaining constructors are the `outputStream.write` calls. -/
inductive ScanEvent where
  | enumerate (relativePath : String)
  | pathLine (relativePath : String)
  | envSkippedMarker
  | envContent (content : String)
  | binaryMarker
  | fileContent (content : String)
deriving DecidableEq, Repr

/-- The relative path of an event, when it has one. -/
def eventPath : ScanEvent → Option String
  | .enumerate p => some p
  | .pathLine p => some p
  | _ => none

/-- Is this event the enumeration of a directory entry? -/
def isEnumerate : ScanEvent → Bool
  | .enumerate _ => true
  | _ => false

/-- `p` lies strictly underneath `q`: `p` starts with `q` followed by a
separator. -/
def underB (q p : String) : Bool := JsStr.startsL (q.data ++ ['/']) p.data

/-- The event carries a relative path strictly underneath `q`. -/
def eventUnder (q : String) (ev : ScanEvent) : Bool :=
  match eventPath ev with
  | some p => underB q p
  | none => false

mutual
/-- A directory tree node as enumerated by `fs.promises.readdir` (mutual with
a bespoke list so that the scan below is structurally recursive). -/
inductive FSEntry where
  | file (name : String) (content : String)
  | dir (name : String) (children : FSList)
/-- A list of sibling directory entries, in enumeration order. -/
inductive FSList where
  | nil
  | cons (e : FSEntry) (rest : FSList)
end

/-- `path.relative(basePath, path.join(dirPath, name))` with separators
normalized: extend a relative directory path by one entry name. -/
def joinRel (pre name : String) : String :=
  if pre = "" then name else pre ++ "/" ++ name

mutual
/-- One iteration of the `for (const entry of entries)` loop of
`scanDirectory` (`src/scanner.ts` lines 181-260), for the entry `e` whose
parent directory has relative path `pre`: returns the updated stats and the
trace of events.  File reads always succeed in this model (contents are part
of the tree), so the per-file `catch` branches are unreachable. -/
def scanEntry (blacklist : List String) (includeEnvFiles : Bool) (pre : String)
    (e : FSEntry) (st : ScanStats) : ScanStats × List ScanEvent :=
  match e with
  | .file name content =>
    let rp := joinRel pre name
    if isBlacklisted rp blacklist then
      ({ st with skipped := st.skipped + 1 }, [.enumerate rp])
    else
      let st := { st with files := st.files + 1 }
      if isEnvFile rp then
        let st := { st with envFiles := st.envFiles + 1 }
        if !includeEnvFiles then (st, [.enumerate rp, .pathLine rp, .envSkippedMarker])
        else (st, [.enumerate rp, .pathLine rp, .envContent content])
      else if !isTextFile rp then (st, [.enumerate rp, .pathLine rp, .binaryMarker])
      else (st, [.enumerate rp, .pathLine rp, .fileContent content])
  | .dir name children =>
    let rp := joinRel pre name
    if isBlacklisted rp blacklist then
      ({ st with skipped := st.skipped + 1 }, [.enumerate rp])
    else
      let r := scanList blacklist includeEnvFiles rp children
        { st with dirs := st.dirs + 1 }
      (r.1, .enumerate rp :: .pathLine rp :: r.2)

/-- `scanDirectory` over the entries of one directory, in enumeration order. -/
def scanList (blacklist : List String) (includeEnvFiles : Bool) (pre : String)
    (es : FSList) (st : ScanStats) : ScanStats × List ScanEvent :=
  match es with
  | .nil => (st, [])
  | .cons e rest =>
    let r1 := scanEntry blacklist includeEnvFiles pre e st
    let r2 := scanList blacklist includeEnvFiles pre rest r1.1
    (r2.1, r1.2 ++ r2.2)
end

mutual
/-- Entry names contain no separator (true of anything `readdir` returns). -/
def entryNamesOk : FSEntry → Bool
  | .file name _ => name.data.all (· ≠ '/')
  | .dir name children => name.data.all (· ≠ '/') && listNamesOk children
/-- All names in the forest contain no separator. -/
def listNamesOk : FSList → Bool
  | .nil => true
  | .cons e rest => entryNamesOk e && listNamesOk rest
end

end Scanner

namespace Index

/-- The mutable flags of `removeTypeScriptComments`' character scan
(`src/index.ts` lines 139-144). -/
structure TSState where
  inSingleLineComment : Bool
  inMultiLineComment : Bool
  inSingleQuoteString : Bool
  inDoubleQuoteString : Bool
  inTemplateString : Bool
  escape : Bool
deriving DecidableEq, Repr

/-- All flags start out false. -/
def TSState.initial : TSState := ⟨false, false, false, false, false, false⟩

/-- Inside any of the three kinds of string literal. -/
def TSState.inString (s : TSState) : Bool :=
  s.inSingleQuoteString || s.inDoubleQuoteString || s.inTemplateString

/-- The inner `for (let j = 0; ...)` loop of `removeTypeScriptComments`
(`src/index.ts` lines 152-219) over the characters of one line: escape
handling, string toggling, comment opening/closing (with the `j++` lookahead
skip) and conditional emission, in source order. -/
def processLine (s : TSState) : List Char → TSState × List Char
  | [] => (s, [])
  | c :: rest =>
    if s.escape then
      let r := processLine { s with escape := false } rest
      (r.1, c :: r.2)
    else if c == '\\' && s.inString then
      let r := processLine { s with escape := true } rest
      (r.1, c :: r.2)
    else if !s.inSingleLineComment && !s.inMultiLineComment && c == '\'' &&
        !s.inDoubleQuoteString && !s.inTemplateString then
      let r := processLine { s with inSingleQuoteString := !s.inSingleQuoteString } rest
      (r.1, c :: r.2)
    else if !s.inSingleLineComment && !s.inMultiLineComment && c == '"' &&
        !s.inSingleQuoteString && !s.inTemplateString then
      let r := processLine { s with inDoubleQuoteString := !s.inDoubleQuoteString } rest
      (r.1, c :: r.2)
    else if !s.inSingleLineComment && !s.inMultiLineComment && c == '`' &&
        !s.inSingleQuoteString && !s.inDoubleQuoteString then
      let r := processLine { s with inTemplateString := !s.inTemplateString } rest
      (r.1, c :: r.2)
    else if s.inString then
      let r := processLine s rest
      (r.1, c :: r.2)
    else
      match rest with
      | [] =>
        if !s.inSingleLineComment && !s.inMultiLineComment then (s, [c]) else (s, [])
      | d :: rest' =>
        if !s.inSingleLineComment && !s.inMultiLineComment && c == '/' && d == '/' then
          processLine { s with inSingleLineComment := true } rest'
        else if !s.inSingleLineComment && !s.inMultiLineComment && c == '/' && d == '*' then
          processLine { s with inMultiLineComment := true } rest'
        else if s.inMultiLineComment && c == '*' && d == '/' then
          processLine { s with inMultiLineComment := false } rest'
        else if !s.inSingleLineComment && !s.inMultiLineComment then
          let r := processLine s (d :: rest')
          (r.1, c :: r.2)
        else
          processLine s (d :: rest')

/-- The outer loop of `removeTypeScriptComments` over the `\n`-split lines:
the state is threaded across lines, `inSingleLineComment` resets at each line
end, and a line is kept unless it is blank inside a multi-line comment. -/
def processLines : TSState → List (List Char) → List (List Char)
  | _, [] => []
  | s, line :: rest =>
    let r := processLine s line
    let s' := { r.1 with inSingleLineComment := false }
    if !r.1.inMultiLineComment || r.2.any (fun c => !c.isWhitespace) then
      r.2 :: processLines s' rest
    else
      processLines s' rest

/-- `removeTypeScriptComments(content)` from `src/index.ts`. -/
def removeTypeScriptComments (content : String) : String :=
  String.mk (JsStr.joinChar '\n'
    (processLines TSState.initial (JsStr.splitOnChar '\n' content.data)))

/-- `removeJsonComments(content)` from `src/index.ts` (it just delegates). -/
def removeJsonComments (content : String) : String :=
  removeTypeScriptComments content

/-- Forget the comment flags of a state (the state an idempotence argument
compares a second pass against: a second pass never enters a comment). -/
def mirror (s : TSState) : TSState :=
  { s with inSingleLineComment := false, inMultiLineComment := false }

/-- Reachable-state invariant of the scan: inside a comment all string flags
and the escape flag are off, and the escape flag is only ever set inside a
string. -/
def TSState.Ok (s : TSState) : Prop :=
  ((s.inSingleLineComment = true ∨ s.inMultiLineComment = true) →
    (s.inSingleQuoteString = false ∧ s.inDoubleQuoteString = false ∧
      s.inTemplateString = false ∧ s.escape = false)) ∧
  (s.escape = true → s.inString = true)

end Index

namespace Index

/-- The *model's* parser accepts the rule's compiled wildcard pattern (if any):
either the normalized rule contains no `*`, or the regular expression that
`shouldExcludeFile` builds for it is accepted by `parseRegex`.  This is a
necessary condition for `shouldExcludeGo` in the model not to error, but it is
weaker than success of the real `new RegExp`, whose grammar (character
classes, quantifiers, assertions) goes beyond the fragment `parseRegex`
implements: e.g. the rule `"[*"` compiles to `^[.*$`, which `new RegExp`
rejects (unterminated character class) while `parseRegex` reads `[` as a
literal.  `ruleWildcardSafe` below is the honest, sufficient side condition. -/
def ruleCompileOk (pattern : String) : Bool :=
  let normalizedPattern := normSlashes pattern
  if normalizedPattern.data.any (· = '*') then
    match parseRegex (starToDotStar (escapeDots normalizedPattern)) with
    | .ok _ => true
    | .error _ => false
  else true

/-- ECMAScript regex metacharacters that `shouldExcludeFile`'s wildcard
compilation passes through *unescaped* (only `.` is escaped and `*` is
rewritten to `.*`).  A rule containing one of these can make `new RegExp`
throw (`[`, `(`, `)`) or give the compiled pattern a non-literal meaning
(`+`, `?`, `{n}`, `|`, `^`, `$`, classes), which the literal-minded model
cannot track. -/
def regexMetaChar (c : Char) : Bool :=
  c = '[' || c = ']' || c = '(' || c = ')' || c = '{' || c = '}' ||
  c = '+' || c = '?' || c = '|' || c = '\\' || c = '^' || c = '$'

/-- Sufficient syntactic condition for a rule's wildcard compilation to be
faithful: if the normalized rule contains a `*` (so `shouldExcludeFile` builds
a regex from it), it contains no regex metacharacter.  Every token of the
compiled pattern is then a literal character, an escaped dot `\.`, or `.*`,
a fragment on which `new RegExp(...)` always succeeds and on which its
anchored-match semantics coincides with the model's `rmatch`. -/
def ruleWildcardSafe (pattern : String) : Bool :=
  let normalizedPattern := normSlashes pattern
  !normalizedPattern.data.any (· = '*') ||
    normalizedPattern.data.all (fun c => !regexMetaChar c)

end Index


namespace JsStr

theorem splitOnChar_ne_nil (sep : Char) (l : List Char) : splitOnChar sep l ≠ [] := by
  induction l with
  | nil => simp [splitOnChar]
  | cons c rest ih =>
    simp only [splitOnChar]
    by_cases h : c = sep
    · simp [h]
    · simp only [if_neg h]
      cases hr : splitOnChar sep rest with
      | nil => exact absurd hr ih
      | cons a t => simp

theorem splitOnChar_cons (sep c : Char) (rest : List Char) :
    splitOnChar sep (c :: rest) =
      if c = sep then [] :: splitOnChar sep rest
      else
        match splitOnChar sep rest with
        | [] => [[c]]
        | h :: t => (c :: h) :: t := by
  simp only [splitOnChar]

theorem joinChar_splitOnChar (sep : Char) (l : List Char) :
    joinChar sep (splitOnChar sep l) = l := by
  induction l with
  | nil => rfl
  | cons c rest ih =>
    simp only [splitOnChar]
    by_cases h : c = sep
    · simp only [if_pos h]
      cases hr : splitOnChar sep rest with
      | nil => exact absurd hr (splitOnChar_ne_nil sep rest)
      | cons a t =>
        rw [hr] at ih
        show joinChar sep ([] :: a :: t) = c :: rest
        show [] ++ sep :: joinChar sep (a :: t) = c :: rest
        rw [List.nil_append, ih, h]
    · simp only [if_neg h]
      cases hr : splitOnChar sep rest with
      | nil => exact absurd hr (splitOnChar_ne_nil sep rest)
      | cons a t =>
        rw [hr] at ih
        cases t with
        | nil =>
          show c :: a = c :: rest
          rw [show joinChar sep [a] = a from rfl] at ih
          rw [ih]
        | cons b t' =>
          show (c :: a) ++ sep :: joinChar sep (b :: t') = c :: rest
          rw [show joinChar sep (a :: b :: t') = a ++ sep :: joinChar sep (b :: t') from rfl]
            at ih
          rw [List.cons_append, ih]

end JsStr

namespace Stripper

theorem countNLRun_cons_nl (rest : List Char) :
    countNLRun ('\n' :: rest) = ((countNLRun rest).1 + 1, (countNLRun rest).2) := by
  rw [countNLRun.eq_def]
  simp

theorem countNLRun_other {c : Char} (h1 : c ≠ '\n') (h2 : c ≠ '\r') (rest : List Char) :
    countNLRun (c :: rest) = (0, c :: rest) := by
  rw [countNLRun.eq_def]
  simp [h1, h2]

theorem countNLRun_repl_b (m : Nat) :
    countNLRun (List.replicate m '\n' ++ ['b']) = (m, ['b']) := by
  induction m with
  | zero => rfl
  | succ k ih => simp [List.replicate_succ, countNLRun_cons_nl, ih]

theorem collapseAux_nil (fuel : Nat) : collapseAux fuel [] = [] := by
  cases fuel <;> simp [collapseAux, countNLRun]

theorem splitOnChar_repl_b (m : Nat) :
    JsStr.splitOnChar '\n' (List.replicate m '\n' ++ ['b']) =
      List.replicate m ([] : List Char) ++ [['b']] := by
  induction m with
  | zero => rfl
  | succ k ih => simp [List.replicate_succ, JsStr.splitOnChar, ih]

theorem joinChar_repl_b (j : Nat) :
    JsStr.joinChar '\n' (List.replicate j ([] : List Char) ++ [['b']]) =
      List.replicate j '\n' ++ ['b'] := by
  induction j with
  | zero => rfl
  | succ i ih =>
    rw [List.replicate_succ, List.cons_append]
    cases hi : List.replicate i ([] : List Char) ++ [['b']] with
    | nil => simp at hi
    | cons y t =>
      rw [hi] at ih
      show ([] : List Char) ++ '\n' :: JsStr.joinChar '\n' (y :: t) = _
      rw [List.nil_append, ih, List.replicate_succ, List.cons_append]

theorem removeWs_a_repl_b (m : Nat) :
    removeWsOnlyLines ('a' :: (List.replicate m '\n' ++ ['b'])) =
      'a' :: (List.replicate m '\n' ++ ['b']) := by
  cases m with
  | zero => decide
  | succ j =>
    unfold removeWsOnlyLines
    have hsp : JsStr.splitOnChar '\n' ('a' :: (List.replicate (j + 1) '\n' ++ ['b'])) =
        ['a'] :: (List.replicate j ([] : List Char) ++ [['b']]) := by
      rw [JsStr.splitOnChar_cons]
      rw [if_neg (by decide : ¬ ('a' : Char) = '\n')]
      rw [splitOnChar_repl_b]
      simp [List.replicate_succ]
    rw [hsp]
    rw [List.map_cons]
    have hmap : (List.replicate j ([] : List Char) ++ [['b']]).map cleanWsLine =
        List.replicate j ([] : List Char) ++ [['b']] := by
      rw [List.map_append, List.map_replicate]
      rfl
    rw [hmap]
    rw [show cleanWsLine ['a'] = ['a'] from by decide]
    cases hi : List.replicate j ([] : List Char) ++ [['b']] with
    | nil => simp at hi
    | cons y t =>
      have hj := joinChar_repl_b j
      rw [hi] at hj
      show ['a'] ++ '\n' :: JsStr.joinChar '\n' (y :: t) = _
      rw [List.cons_append, List.nil_append, hj, List.replicate_succ, List.cons_append]

theorem collapse_a_repl_b {m : Nat} (h : 3 ≤ m) :
    collapseNewlineRuns ('a' :: (List.replicate m '\n' ++ ['b'])) = ['a', '\n', '\n', 'b'] := by
  obtain ⟨k, rfl⟩ : ∃ k, m = k + 3 := ⟨m - 3, by omega⟩
  unfold collapseNewlineRuns
  have hlen : ('a' :: (List.replicate (k + 3) '\n' ++ ['b'])).length = (k + 4) + 1 := by
    simp
  rw [hlen]
  rw [show collapseAux ((k + 4) + 1) ('a' :: (List.replicate (k + 3) '\n' ++ ['b'])) =
      'a' :: collapseAux (k + 4) (List.replicate (k + 3) '\n' ++ ['b']) from by
    simp only [collapseAux]
    rw [countNLRun_other (by decide) (by decide)]
    simp]
  rw [show (k + 4 : Nat) = (k + 3) + 1 from rfl]
  rw [show collapseAux ((k + 3) + 1) (List.replicate (k + 3) '\n' ++ ['b']) =
      '\n' :: '\n' :: collapseAux (k + 3) ['b'] from by
    simp only [collapseAux]
    rw [countNLRun_repl_b]
    simp]
  rw [show (k + 3 : Nat) = (k + 2) + 1 from rfl]
  rw [show collapseAux ((k + 2) + 1) ['b'] = 'b' :: collapseAux (k + 2) [] from by
    simp only [collapseAux]
    rw [countNLRun_other (by decide) (by decide)]
    simp]
  rw [collapseAux_nil]

end Stripper

/-- **C1** (corrected claim, counterexample): as stated the claim is false — the
traversal filter `isBlacklisted` has no wildcard handling at all, so the rule
`"*.spec.ts"` does *not* exclude `"foo.spec.ts"` there. -/
theorem C1_counterexample :
    Scanner.isBlacklisted "foo.spec.ts" ["*.spec.ts"] = false := by decide

/-- **C1** (amended): only the file-list filter `shouldExcludeFile` compiles a
rule containing `*` to an anchored pattern and tests it against the basename —
rule `"*.spec.ts"` excludes `"foo.spec.ts"` and `"a/b/foo.spec.ts"` but not
`"foo.spec.ts.bak"` there; the traversal filter `isBlacklisted` has no wildcard
handling and excludes none of these paths under that rule. -/
theorem C1_wildcard_basename_only_in_shouldExcludeFile :
    Index.shouldExcludeFile "foo.spec.ts" ["*.spec.ts"] = .ok true ∧
    Index.shouldExcludeFile "a/b/foo.spec.ts" ["*.spec.ts"] = .ok true ∧
    Index.shouldExcludeFile "foo.spec.ts.bak" ["*.spec.ts"] = .ok false ∧
    Scanner.isBlacklisted "foo.spec.ts" ["*.spec.ts"] = false ∧
    Scanner.isBlacklisted "a/b/foo.spec.ts" ["*.spec.ts"] = false ∧
    Scanner.isBlacklisted "foo.spec.ts.bak" ["*.spec.ts"] = false :=
  ⟨rfl, rfl, rfl, by decide, by decide, by decide⟩

/-- **C4**: the comment-stripping entry point never fails the caller — whenever
the dispatched stripping body raises (modelled by `Except.error`), `stripComments`
returns the original content unchanged; by construction it always returns a
`String`, so no exception propagates. -/
theorem C4_stripComments_total_catch
    (decomment stripJsonComments : String → Except String String)
    (content : String) (fileType : Stripper.FileType) (e : String)
    (h : Stripper.stripBody decomment stripJsonComments content fileType =
      .error e) :
    Stripper.stripComments decomment stripJsonComments content fileType = content := by
  unfold Stripper.stripComments
  rw [h]

/-- Witness for **C4** at a concrete failing stripper. -/
theorem C4_stripComments_total_catch_witness :
    Stripper.stripBody (fun _ => .error "boom") (fun _ => .ok "") "x" .TYPESCRIPT =
      .error "boom" ∧
    Stripper.stripComments (fun _ => .error "boom") (fun _ => .ok "") "x" .TYPESCRIPT =
      "x" :=
  ⟨rfl, C4_stripComments_total_catch _ _ _ _ "boom" rfl⟩

/-- **C5** (corrected claim, counterexample): a run of exactly 2 blank lines is
*not* left as-is — `"a\n\n\nb"` (two blank lines between `a` and `b`) collapses
to a single blank line, contradicting the claimed 3-or-more threshold. -/
theorem C5_counterexample :
    Stripper.removeExcessiveEmptyLines "a\n\n\nb" = "a\n\nb" ∧
    Stripper.removeExcessiveEmptyLines "a\n\n\nb" ≠ "a\n\n\nb" :=
  ⟨by decide, by decide⟩

/-- **C5** (amended): blank-line normalization first empties whitespace-only
lines, then collapses every run of *2-or-more* consecutive blank lines (i.e.
3-or-more consecutive newlines) down to exactly one blank line; runs of 0 or 1
blank lines are unchanged.  `m` counts newline characters, so `m` newlines
separate `m - 1` blank lines: `m ≥ 3` collapses to one blank line, `m ≤ 2` is
untouched; in particular 5 blank lines become 1, and a whitespace-only line is
first reduced to a true empty line. -/
theorem C5_blank_line_collapse :
    (∀ m : Nat, 3 ≤ m →
      Stripper.removeExcessiveEmptyLines
        (String.mk ('a' :: (List.replicate m '\n' ++ ['b']))) = "a\n\nb") ∧
    (∀ m : Nat, m ≤ 2 →
      Stripper.removeExcessiveEmptyLines
        (String.mk ('a' :: (List.replicate m '\n' ++ ['b']))) =
        String.mk ('a' :: (List.replicate m '\n' ++ ['b']))) ∧
    Stripper.removeExcessiveEmptyLines "a\n\n\n\n\n\nb" = "a\n\nb" ∧
    Stripper.removeExcessiveEmptyLines "a\nb" = "a\nb" ∧
    Stripper.removeExcessiveEmptyLines "a\n\nb" = "a\n\nb" ∧
    Stripper.removeExcessiveEmptyLines "a\n \t\nb" = "a\n\nb" := by
  refine ⟨?_, ?_, by decide, by decide, by decide, by decide⟩
  · intro m h
    show String.mk (Stripper.collapseNewlineRuns (Stripper.removeWsOnlyLines
      ('a' :: (List.replicate m '\n' ++ ['b'])))) = "a\n\nb"
    rw [Stripper.removeWs_a_repl_b, Stripper.collapse_a_repl_b h]
  · intro m h
    interval_cases m <;> decide

/-- Witness for **C5** at 5 newlines (4 blank lines) and at 2 newlines. -/
theorem C5_blank_line_collapse_witness :
    (3 ≤ 5 ∧
      Stripper.removeExcessiveEmptyLines
        (String.mk ('a' :: (List.replicate 5 '\n' ++ ['b']))) = "a\n\nb") ∧
    (2 ≤ 2 ∧
      Stripper.removeExcessiveEmptyLines
        (String.mk ('a' :: (List.replicate 2 '\n' ++ ['b']))) =
        String.mk ('a' :: (List.replicate 2 '\n' ++ ['b']))) :=
  ⟨⟨by decide, C5_blank_line_collapse.1 5 (by decide)⟩,
   ⟨by decide, C5_blank_line_collapse.2.1 2 (by decide)⟩⟩

/-- **C9**: `shouldExcludeFile` is not total over arbitrary rule strings — the
rule `"(*"` contains `*`, its compilation only escapes dots before replacing
`*` by `.*`, and constructing the anchored regular expression from the
resulting pattern `(.*` raises a syntax error instead of the function
returning a boolean. -/
theorem C9_wildcard_rule_regex_exception :
    ("(*" : String).data.any (· = '*') = true ∧
    Index.shouldExcludeFile "foo.txt" ["(*"] =
      .error "Invalid regular expression: Unterminated group" :=
  ⟨by decide, rfl⟩

namespace JsStr

theorem startsL_iff (a b : List Char) : startsL a b = true ↔ ∃ t, b = a ++ t := by
  induction a generalizing b with
  | nil => simp [startsL]
  | cons x xs ih =>
    cases b with
    | nil => simp [startsL]
    | cons y ys =>
      simp only [startsL, Bool.and_eq_true, decide_eq_true_eq, ih]
      constructor
      · rintro ⟨rfl, t, rfl⟩
        exact ⟨t, rfl⟩
      · rintro ⟨t, ht⟩
        injection ht with h1 h2
        exact ⟨h1.symm, t, h2⟩

theorem endsL_iff (a b : List Char) : endsL a b = true ↔ ∃ t, b = t ++ a := by
  unfold endsL
  rw [startsL_iff]
  constructor
  · rintro ⟨t, ht⟩
    refine ⟨t.reverse, ?_⟩
    have := congrArg List.reverse ht
    simpa using this
  · rintro ⟨t, rfl⟩
    exact ⟨t.reverse, by simp⟩

theorem takeWhile_ne_append (mark : Char) (xs ys : List Char) (h : ∀ x ∈ xs, x ≠ mark) :
    (xs ++ mark :: ys).takeWhile (· ≠ mark) = xs := by
  induction xs with
  | nil => simp [List.takeWhile]
  | cons x xs' ih =>
    have hx : x ≠ mark := h x (by simp)
    simp only [List.cons_append, List.takeWhile_cons]
    rw [if_pos (by simpa using hx)]
    rw [ih (fun z hz => h z (by simp [hz]))]

theorem splitOnChar_no_sep (sep : Char) (l : List Char) (h : ∀ x ∈ l, x ≠ sep) :
    splitOnChar sep l = [l] := by
  induction l with
  | nil => rfl
  | cons c rest ih =>
    rw [splitOnChar_cons, if_neg (h c (by simp))]
    rw [ih (fun z hz => h z (by simp [hz]))]

theorem splitOnChar_seg_append (sep : Char) (xs ys : List Char) (h : ∀ x ∈ xs, x ≠ sep) :
    splitOnChar sep (xs ++ sep :: ys) = xs :: splitOnChar sep ys := by
  induction xs with
  | nil =>
    rw [List.nil_append, splitOnChar_cons, if_pos rfl]
  | cons x xs' ih =>
    rw [List.cons_append, splitOnChar_cons, if_neg (h x (by simp))]
    rw [ih (fun z hz => h z (by simp [hz]))]

end JsStr

namespace Index

theorem posixBasename_concat (t L : List Char) (hL0 : L ≠ [])
    (hL : ∀ c ∈ L, c ≠ '/') :
    posixBasename (String.mk (t ++ '/' :: L)) = String.mk L := by
  unfold posixBasename
  show String.mk ((((t ++ '/' :: L).reverse.dropWhile (· = '/')).takeWhile (· ≠ '/')).reverse) = _
  have hrev : (t ++ '/' :: L).reverse = L.reverse ++ '/' :: t.reverse := by simp
  rw [hrev]
  have hdrop : (L.reverse ++ '/' :: t.reverse).dropWhile (· = '/') =
      L.reverse ++ '/' :: t.reverse := by
    cases hc : L.reverse with
    | nil => exact absurd (by simpa using hc) hL0
    | cons x xs =>
      have hx : x ∈ L := by
        have : x ∈ L.reverse := by rw [hc]; exact List.mem_cons_self x xs
        simpa using this
      rw [List.cons_append]
      rw [List.dropWhile_cons_of_neg (by simpa using hL x hx)]
  rw [hdrop]
  rw [JsStr.takeWhile_ne_append '/' L.reverse t.reverse
    (fun z hz => hL z (by simpa using hz))]
  rw [List.reverse_reverse]

end Index

namespace Index

theorem basename_LICENSE_of_cond (np : String)
    (h : np = "LICENSE" ∨ JsStr.endsL ('/' :: ("LICENSE" : String).data) np.data = true) :
    posixBasename np = "LICENSE" := by
  rcases h with rfl | h
  · decide
  · obtain ⟨t, ht⟩ := (JsStr.endsL_iff _ _).mp h
    cases np with
    | mk d =>
      simp only at ht
      subst ht
      exact posixBasename_concat t _ (by decide) (by decide)

theorem go_LICENSE_iff (np : String) :
    shouldExcludeGo np (posixBasename np) ["LICENSE"] = .ok true ↔
      posixBasename np = "LICENSE" := by
  have hpat : normSlashes "LICENSE" = "LICENSE" := by decide
  simp only [shouldExcludeGo, hpat]
  rw [show ("LICENSE" : String).data.any (· = '*') = false from by decide]
  split_ifs with h1 h2 h3
  · constructor
    · intro _
      apply basename_LICENSE_of_cond np
      rcases (Bool.or_eq_true _ _).mp h1 with h | h
      · exact Or.inl (of_decide_eq_true h)
      · exact Or.inr h
    · intro _
      rfl
  · simp [h2]
  · exact h3.elim
  · simp [h2]

end Index

namespace Scanner

theorem blItemMatches_LICENSE (np : String) (segs : List String) :
    blItemMatches np segs "LICENSE" =
      (decide (np = "LICENSE") ||
        JsStr.startsL (("LICENSE" : String).data ++ ['/']) np.data ||
        segs.contains "LICENSE") := by
  have hitem : stripEdgeSlashes (normSlashes "LICENSE") = "LICENSE" := by decide
  simp only [blItemMatches, hitem]
  by_cases h : np = "LICENSE"
  · simp [h]
  · rw [if_neg h]
    rw [show JsStr.endsL ['/'] ("LICENSE" : String).data = false from by decide,
        show knownDirectories.contains ("LICENSE" : String) = false from by decide,
        show JsStr.startsL ['.'] ("LICENSE" : String).data = false from by decide,
        show ("LICENSE" : String).data.any (· = '.') = false from by decide]
    simp [h]

theorem isBlacklisted_LICENSE_iff (p : String) :
    isBlacklisted p ["LICENSE"] = true ↔
      "LICENSE" ∈ (JsStr.splitOnChar '/' (normSlashes p).data).map String.mk := by
  simp only [isBlacklisted, List.any_cons, List.any_nil, Bool.or_false,
    blItemMatches_LICENSE]
  simp only [Bool.or_eq_true, decide_eq_true_eq]
  constructor
  · rintro ((h | h) | h)
    · rw [h]; decide
    · obtain ⟨t, ht⟩ := (JsStr.startsL_iff _ _).mp h
      rw [ht]
      rw [List.append_assoc, List.singleton_append]
      rw [JsStr.splitOnChar_seg_append '/' ("LICENSE" : String).data t (by decide)]
      rw [List.map_cons]
      exact List.mem_cons_self _ _
    · simpa [List.contains, List.elem_eq_mem] using h
  · intro h
    right
    simpa [List.contains, List.elem_eq_mem] using h

end Scanner

/-- **C6** (corrected claim, counterexample): the rule `"LICENSE"` is *not*
file-like in the traversal filter — having no dot it is classified
directory-like, so `isBlacklisted` excludes `"LICENSE/notes.txt"`, a path
whose basename differs from `"LICENSE"`, contradicting the claimed
"only when the basename is exactly LICENSE". -/
theorem C6_counterexample :
    Scanner.isBlacklisted "LICENSE/notes.txt" ["LICENSE"] = true ∧
    Index.posixBasename "LICENSE/notes.txt" ≠ "LICENSE" := ⟨by decide, by decide⟩

/-- **C6** (amended): for the file-list filter `shouldExcludeFile` the rule
`"LICENSE"` excludes `p` iff the basename of (the slash-normalized) `p` is
exactly `"LICENSE"`; for the traversal filter `isBlacklisted` the dot-less
rule `"LICENSE"` is classified directory-like and excludes `p` iff some
slash-separated segment of `p` equals `"LICENSE"` (which covers paths whose
basename differs).  A path with basename `"LICENSE.md"` is excluded by
neither. -/
theorem C6_LICENSE_rule :
    (∀ p : String, Index.shouldExcludeFile p ["LICENSE"] = .ok true ↔
      Index.posixBasename (Index.normSlashes p) = "LICENSE") ∧
    (∀ p : String, Scanner.isBlacklisted p ["LICENSE"] = true ↔
      "LICENSE" ∈ (JsStr.splitOnChar '/' (Scanner.normSlashes p).data).map String.mk) ∧
    Index.shouldExcludeFile "LICENSE.md" ["LICENSE"] = .ok false ∧
    Scanner.isBlacklisted "LICENSE.md" ["LICENSE"] = false :=
  ⟨fun p => Index.go_LICENSE_iff (Index.normSlashes p),
   Scanner.isBlacklisted_LICENSE_iff, rfl, by decide⟩

namespace Scanner

theorem blItemMatches_of_exact (np : String) (segs : List String) (item : String)
    (h : np = stripEdgeSlashes (normSlashes item)) :
    blItemMatches np segs item = true := by
  simp only [blItemMatches]
  rw [if_pos h]

theorem isBlacklisted_of_exact (p r : String) (R : List String) (hr : r ∈ R)
    (h : normSlashes p = stripEdgeSlashes (normSlashes r)) :
    isBlacklisted p R = true := by
  simp only [isBlacklisted]
  rw [List.any_eq_true]
  exact ⟨r, hr, blItemMatches_of_exact _ _ _ h⟩

end Scanner

namespace Index

theorem go_of_exact (np fn r : String) :
    ∀ R : List String, r ∈ R → (∀ q ∈ R, ruleCompileOk q = true) →
      np = normSlashes r → shouldExcludeGo np fn R = .ok true := by
  intro R
  induction R with
  | nil => intro hr; cases hr
  | cons q R' ih =>
    intro hr hcomp heq
    simp only [shouldExcludeGo]
    by_cases h1 : (decide (np = normSlashes q) ||
        JsStr.endsL ('/' :: (normSlashes q).data) np.data) = true
    · rw [if_pos h1]
    · rw [if_neg h1]
      have hrq : r ∈ R' := by
        rcases List.mem_cons.mp hr with rfl | hx
        · exact absurd (by simp [heq]) h1
        · exact hx
      have hcomp' : ∀ z ∈ R', ruleCompileOk z = true :=
        fun z hz => hcomp z (List.mem_cons_of_mem q hz)
      by_cases h2 : fn = normSlashes q
      · rw [if_pos h2]
      · rw [if_neg h2]
        by_cases h3 : ((normSlashes q).data.any (· = '*')) = true
        · rw [if_pos h3]
          have hc := hcomp q (List.mem_cons_self q R')
          simp only [ruleCompileOk] at hc
          rw [if_pos h3] at hc
          cases hp : parseRegex (starToDotStar (escapeDots (normSlashes q))) with
          | error e =>
            rw [hp] at hc
            simp at hc
          | ok reg =>
            rw [hp] at hc
            show (if rmatch reg fn = true then Except.ok true
              else shouldExcludeGo np fn R') = Except.ok true
            by_cases h4 : rmatch reg fn = true
            · rw [if_pos h4]
            · rw [if_neg h4]
              exact ih hrq hcomp' heq
        · rw [if_neg h3]
          exact ih hrq hcomp' heq

end Index

namespace Index

theorem parseRegexAux_nil (seqAcc alts : List Regex) :
    parseRegexAux [] seqAcc alts [] = .ok (altsOf alts (seqOfRev seqAcc)) := rfl

theorem parseRegexAux_esc (d : Char) (rest : List Char) (seqAcc alts : List Regex)
    (stack : List (List Regex × List Regex)) :
    parseRegexAux ('\\' :: d :: rest) seqAcc alts stack =
      parseRegexAux rest (Regex.lit d :: seqAcc) alts stack := rfl

theorem parseRegexAux_dot (rest : List Char) (seqAcc alts : List Regex)
    (stack : List (List Regex × List Regex)) :
    parseRegexAux ('.' :: rest) seqAcc alts stack =
      parseRegexAux rest (Regex.anyChar :: seqAcc) alts stack := rfl

theorem parseRegexAux_star_any (rest : List Char) (seqAcc alts : List Regex)
    (stack : List (List Regex × List Regex)) :
    parseRegexAux ('*' :: rest) (Regex.anyChar :: seqAcc) alts stack =
      parseRegexAux rest (Regex.star Regex.anyChar :: seqAcc) alts stack := rfl

theorem parseRegexAux_lit (c : Char) (rest : List Char) (seqAcc alts : List Regex)
    (stack : List (List Regex × List Regex))
    (h1 : c ≠ '\\') (h2 : c ≠ '.') (h3 : c ≠ '*') (h4 : c ≠ '(') (h5 : c ≠ ')')
    (h6 : c ≠ '|') :
    parseRegexAux (c :: rest) seqAcc alts stack =
      parseRegexAux rest (Regex.lit c :: seqAcc) alts stack := by
  rw [parseRegexAux.eq_def]
  split <;> simp_all

theorem escapeDots_data_cons (c : Char) (l : List Char) :
    (escapeDots (String.mk (c :: l))).data =
      (if c = '.' then ['\\', '.'] else [c]) ++ (escapeDots (String.mk l)).data := by
  show List.foldr (fun c acc => if c = '.' then '\\' :: '.' :: acc else c :: acc) [] (c :: l) =
    (if c = '.' then ['\\', '.'] else [c]) ++
      List.foldr (fun c acc => if c = '.' then '\\' :: '.' :: acc else c :: acc) [] l
  simp only [List.foldr_cons]
  split_ifs <;> rfl

theorem parseRegexAux_safe : ∀ (l : List Char), (∀ c ∈ l, regexMetaChar c = false) →
    ∀ seqAcc : List Regex,
      ∃ r, parseRegexAux (starToDotStar (escapeDots (String.mk l))).data seqAcc [] [] =
        Except.ok r := by
  intro l
  induction l with
  | nil =>
    intro _ seqAcc
    exact ⟨_, rfl⟩
  | cons c l' ih =>
    intro hsafe seqAcc
    have hc : regexMetaChar c = false := hsafe c (by simp)
    have h' : ∀ x ∈ l', regexMetaChar x = false := fun x hx => hsafe x (by simp [hx])
    show ∃ r, parseRegexAux
        (List.foldr (fun c acc => if c = '*' then '.' :: '*' :: acc else c :: acc) []
          ((escapeDots (String.mk (c :: l'))).data)) seqAcc [] [] = Except.ok r
    rw [escapeDots_data_cons]
    by_cases h1 : c = '.'
    · rw [if_pos h1, List.foldr_append]
      show ∃ r, parseRegexAux ('\\' :: '.' ::
          List.foldr (fun c acc => if c = '*' then '.' :: '*' :: acc else c :: acc) []
            ((escapeDots (String.mk l')).data)) seqAcc [] [] = Except.ok r
      rw [parseRegexAux_esc]
      exact ih h' (Regex.lit '.' :: seqAcc)
    · rw [if_neg h1]
      by_cases h2 : c = '*'
      · subst h2
        rw [List.foldr_append]
        show ∃ r, parseRegexAux ('.' :: '*' ::
            List.foldr (fun c acc => if c = '*' then '.' :: '*' :: acc else c :: acc) []
              ((escapeDots (String.mk l')).data)) seqAcc [] [] = Except.ok r
        rw [parseRegexAux_dot, parseRegexAux_star_any]
        exact ih h' (Regex.star Regex.anyChar :: seqAcc)
      · rw [List.foldr_append]
        simp only [List.foldr_cons, List.foldr_nil]
        rw [if_neg h2]
        have hbs : c ≠ '\\' := by intro hx; rw [hx] at hc; simp [regexMetaChar] at hc
        have hlp : c ≠ '(' := by intro hx; rw [hx] at hc; simp [regexMetaChar] at hc
        have hrp : c ≠ ')' := by intro hx; rw [hx] at hc; simp [regexMetaChar] at hc
        have hbar : c ≠ '|' := by intro hx; rw [hx] at hc; simp [regexMetaChar] at hc
        rw [parseRegexAux_lit c _ seqAcc [] [] hbs h1 h2 hlp hrp hbar]
        exact ih h' (Regex.lit c :: seqAcc)

theorem parseRegex_safe (s : String) (hs : ∀ c ∈ s.data, regexMetaChar c = false) :
    ∃ r, parseRegex (starToDotStar (escapeDots s)) = Except.ok r := by
  cases s with
  | mk d => exact parseRegexAux_safe d hs []

theorem ruleWildcardSafe_compileOk (q : String) (h : ruleWildcardSafe q = true) :
    ruleCompileOk q = true := by
  simp only [ruleCompileOk]
  by_cases h3 : ((normSlashes q).data.any (· = '*')) = true
  · rw [if_pos h3]
    have hsafe : ∀ c ∈ (normSlashes q).data, regexMetaChar c = false := by
      simp only [ruleWildcardSafe] at h
      rw [h3] at h
      simp at h
      intro c hc
      have := h c hc
      simpa using this
    obtain ⟨r, hr⟩ := parseRegex_safe (normSlashes q) hsafe
    rw [hr]
  · rw [if_neg h3]

end Index

/-- **C7** (corrected claim, counterexample): `shouldExcludeFile` does *not*
strip leading/trailing slashes from rules — the path `"foo"` equals the rule
`"/foo"` after slash normalization and edge-slash stripping, yet the
file-list filter does not exclude it. -/
theorem C7_counterexample :
    Scanner.normSlashes "foo" = Scanner.stripEdgeSlashes (Scanner.normSlashes "/foo") ∧
    Index.shouldExcludeFile "foo" ["/foo"] = .ok false :=
  ⟨by decide, rfl⟩

/-- **C7** (amended): exact-match exclusion.  For the traversal filter
`isBlacklisted`, if the slash-normalized path equals some rule after slash
normalization *and* edge-slash stripping, the decision is `true`.  For the
file-list filter `shouldExcludeFile`, rules are only separator-normalized
(leading/trailing slashes are *not* stripped); if the normalized path equals
the normalized rule — and every rule that contains a wildcard `*` is built
only from ordinary characters (no unescaped ECMAScript regex metacharacter,
`ruleWildcardSafe`, ensuring the `new RegExp` construction performed for
earlier rules in the list cannot throw; see C9 for a failure) — the decision
is `Except.ok true`. -/
theorem C7_exact_match_excludes :
    (∀ (p r : String) (R : List String), r ∈ R →
      Scanner.normSlashes p = Scanner.stripEdgeSlashes (Scanner.normSlashes r) →
      Scanner.isBlacklisted p R = true) ∧
    (∀ (p r : String) (R : List String), r ∈ R →
      (∀ q ∈ R, Index.ruleWildcardSafe q = true) →
      Index.normSlashes p = Index.normSlashes r →
      Index.shouldExcludeFile p R = .ok true) :=
  ⟨fun p r R hr h => Scanner.isBlacklisted_of_exact p r R hr h,
   fun p r R hr hsafe h => Index.go_of_exact (Index.normSlashes p) _ r R hr
     (fun q hq => Index.ruleWildcardSafe_compileOk q (hsafe q hq)) h⟩

/-- Witness for **C7**: rule `"/a\b/"` matches path `"a/b"` in the traversal
filter after normalization and stripping; rules `"*.log"` and `"x.txt"` are
wildcard-safe and the latter matches path `"x.txt"` exactly in the file-list
filter. -/
theorem C7_exact_match_excludes_witness :
    (("/a\\b/" : String) ∈ ["/a\\b/"] ∧
      Scanner.normSlashes "a/b" = Scanner.stripEdgeSlashes (Scanner.normSlashes "/a\\b/") ∧
      Scanner.isBlacklisted "a/b" ["/a\\b/"] = true) ∧
    (("x.txt" : String) ∈ ["*.log", "x.txt"] ∧
      (∀ q ∈ ["*.log", "x.txt"], Index.ruleWildcardSafe q = true) ∧
      Index.normSlashes "x.txt" = Index.normSlashes "x.txt" ∧
      Index.shouldExcludeFile "x.txt" ["*.log", "x.txt"] = .ok true) :=
  ⟨⟨by decide, by decide,
      C7_exact_match_excludes.1 "a/b" "/a\\b/" ["/a\\b/"] (by decide) (by decide)⟩,
   ⟨by decide, by decide, rfl,
      C7_exact_match_excludes.2 "x.txt" "x.txt" ["*.log", "x.txt"] (by decide)
        (by decide) rfl⟩⟩

namespace Scanner

mutual
theorem scanEntry_counts (bl : List String) (inc : Bool) (pre : String)
    (e : FSEntry) (st : ScanStats) :
    (scanEntry bl inc pre e st).1.skipped + (scanEntry bl inc pre e st).1.dirs +
        (scanEntry bl inc pre e st).1.files =
      st.skipped + st.dirs + st.files +
        (scanEntry bl inc pre e st).2.countP isEnumerate ∧
    st.dirs ≤ (scanEntry bl inc pre e st).1.dirs ∧
    st.files ≤ (scanEntry bl inc pre e st).1.files ∧
    st.skipped ≤ (scanEntry bl inc pre e st).1.skipped := by
  cases e with
  | file name content =>
    simp only [scanEntry]
    split_ifs <;>
      simp [List.countP_cons, List.countP_nil, isEnumerate] <;> omega
  | dir name children =>
    simp only [scanEntry]
    split_ifs with hb
    · simp [List.countP_cons, List.countP_nil, isEnumerate]; omega
    · have h := scanList_counts bl inc (joinRel pre name) children
        { st with dirs := st.dirs + 1 }
      simp [List.countP_cons, isEnumerate] at h ⊢
      omega

theorem scanList_counts (bl : List String) (inc : Bool) (pre : String)
    (es : FSList) (st : ScanStats) :
    (scanList bl inc pre es st).1.skipped + (scanList bl inc pre es st).1.dirs +
        (scanList bl inc pre es st).1.files =
      st.skipped + st.dirs + st.files +
        (scanList bl inc pre es st).2.countP isEnumerate ∧
    st.dirs ≤ (scanList bl inc pre es st).1.dirs ∧
    st.files ≤ (scanList bl inc pre es st).1.files ∧
    st.skipped ≤ (scanList bl inc pre es st).1.skipped := by
  cases es with
  | nil => simp [scanList]
  | cons e rest =>
    have h1 := scanEntry_counts bl inc pre e st
    have h2 := scanList_counts bl inc pre rest (scanEntry bl inc pre e st).1
    simp only [scanList, List.countP_append]
    omega
end

end Scanner

/-- **C10**: counter accounting of the traversal.  Every enumerated entry
increments exactly one of the three counters, so after scanning a directory's
entries `skipped + dirs + files` grows by exactly the number of enumerated
entries, and none of the three counters ever decreases. -/
theorem C10_counter_accounting (bl : List String) (inc : Bool) (pre : String)
    (es : Scanner.FSList) (st : Scanner.ScanStats) :
    (Scanner.scanList bl inc pre es st).1.skipped +
        (Scanner.scanList bl inc pre es st).1.dirs +
        (Scanner.scanList bl inc pre es st).1.files =
      st.skipped + st.dirs + st.files +
        (Scanner.scanList bl inc pre es st).2.countP Scanner.isEnumerate ∧
    st.dirs ≤ (Scanner.scanList bl inc pre es st).1.dirs ∧
    st.files ≤ (Scanner.scanList bl inc pre es st).1.files ∧
    st.skipped ≤ (Scanner.scanList bl inc pre es st).1.skipped :=
  Scanner.scanList_counts bl inc pre es st

namespace JsStr

theorem startsL_nil_false (l : List Char) (h : l ≠ []) : startsL l [] = false := by
  cases l with
  | nil => exact absurd rfl h
  | cons c cs => rfl

end JsStr

namespace Scanner

theorem string_eq_of_data {a b : String} (h : a.data = b.data) : a = b :=
  congrArg String.mk h

theorem underB_joinRel_eq_false {q pre name : String}
    (hname : name.data.all (· ≠ '/') = true)
    (hp1 : pre ≠ q) (hp2 : underB q pre = false) :
    underB q (joinRel pre name) = false := by
  have hmem : ∀ t u : List Char, name.data ≠ t ++ '/' :: u := by
    intro t u hEq
    have : ('/' : Char) ∈ name.data := by rw [hEq]; simp
    have := List.all_eq_true.mp hname _ this
    simp at this
  unfold joinRel
  by_cases hp : pre = ""
  · rw [if_pos hp]
    cases hu : underB q name with
    | false => rfl
    | true =>
      exfalso
      obtain ⟨t, ht⟩ := (JsStr.startsL_iff _ _).mp hu
      rw [List.append_assoc, List.singleton_append] at ht
      exact hmem q.data t ht
  · rw [if_neg hp]
    cases hu : underB q (pre ++ "/" ++ name) with
    | false => rfl
    | true =>
      exfalso
      have hdata : (pre ++ "/" ++ name).data = pre.data ++ '/' :: name.data := by
        rw [String.data_append, String.data_append]
        simp
      unfold underB at hu
      rw [hdata] at hu
      obtain ⟨t, ht⟩ := (JsStr.startsL_iff _ _).mp hu
      rw [List.append_assoc, List.singleton_append] at ht
      rcases List.append_eq_append_iff.mp ht with ⟨a', ha1, ha2⟩ | ⟨c', hc1, hc2⟩
      · cases a' with
        | nil =>
          rw [List.append_nil] at ha1
          exact hp1 (string_eq_of_data ha1.symm)
        | cons x a'' =>
          rw [List.cons_append] at ha2
          injection ha2 with hx hrest
          exact hmem a'' t hrest
      · cases c' with
        | nil =>
          rw [List.append_nil] at hc1
          exact hp1 (string_eq_of_data hc1)
        | cons y c'' =>
          rw [List.cons_append] at hc2
          injection hc2 with hy hrest
          have : underB q pre = true := by
            unfold underB
            rw [(JsStr.startsL_iff _ _)]
            refine ⟨c'', ?_⟩
            rw [hc1, ← hy]
            simp
          rw [this] at hp2
          exact Bool.noConfusion hp2

mutual
theorem scanEntry_not_under (bl : List String) (inc : Bool) (q pre : String)
    (e : FSEntry) (st : ScanStats)
    (hq : isBlacklisted q bl = true) (hn : entryNamesOk e = true)
    (hp1 : pre ≠ q) (hp2 : underB q pre = false) :
    (scanEntry bl inc pre e st).2.all (fun ev => !(eventUnder q ev)) = true := by
  cases e with
  | file name content =>
    have hu : underB q (joinRel pre name) = false :=
      underB_joinRel_eq_false (by simpa [entryNamesOk] using hn) hp1 hp2
    simp only [scanEntry]
    split_ifs <;> simp [eventUnder, eventPath, hu]
  | dir name children =>
    rw [entryNamesOk, Bool.and_eq_true] at hn
    have hu : underB q (joinRel pre name) = false :=
      underB_joinRel_eq_false hn.1 hp1 hp2
    simp only [scanEntry]
    split_ifs with hb
    · simp [eventUnder, eventPath, hu]
    · have hne : joinRel pre name ≠ q := fun hEq => hb (hEq ▸ hq)
      have hrec := scanList_not_under bl inc q (joinRel pre name) children
        { st with dirs := st.dirs + 1 } hq hn.2 hne hu
      simp [eventUnder, eventPath, hu] at hrec ⊢
      exact hrec

theorem scanList_not_under (bl : List String) (inc : Bool) (q pre : String)
    (es : FSList) (st : ScanStats)
    (hq : isBlacklisted q bl = true) (hn : listNamesOk es = true)
    (hp1 : pre ≠ q) (hp2 : underB q pre = false) :
    (scanList bl inc pre es st).2.all (fun ev => !(eventUnder q ev)) = true := by
  cases es with
  | nil => simp [scanList]
  | cons e rest =>
    rw [listNamesOk, Bool.and_eq_true] at hn
    have h1 := scanEntry_not_under bl inc q pre e st hq hn.1 hp1 hp2
    have h2 := scanList_not_under bl inc q pre rest (scanEntry bl inc pre e st).1
      hq hn.2 hp1 hp2
    simp only [scanList, List.all_append]
    rw [h1, h2]
    rfl
end

end Scanner

/-- **C2**: exclusion of a directory is transitive to its whole subtree by
construction.  For every directory forest with separator-free entry names,
every rule set, and every non-root path `q` excluded by the path filter, the
traversal trace contains no event (neither an enumeration nor a written path
line) whose relative path lies strictly underneath `q`: entries are skipped
before any recursion, so nothing below an excluded directory is ever
enumerated, written to the output sink, or counted. -/
theorem C2_excluded_subtree_not_visited (bl : List String) (inc : Bool)
    (es : Scanner.FSList) (st : Scanner.ScanStats) (q : String)
    (hq : Scanner.isBlacklisted q bl = true) (hq0 : q ≠ "")
    (hn : Scanner.listNamesOk es = true) :
    (Scanner.scanList bl inc "" es st).2.all
      (fun ev => !(Scanner.eventUnder q ev)) = true :=
  Scanner.scanList_not_under bl inc q "" es st hq hn
    (fun h => hq0 h.symm)
    (JsStr.startsL_nil_false (q.data ++ ['/']) (by simp))

/-- Witness for **C2**: root `{a/(excluded), a/b.txt}` with rule `"a"` —
nothing underneath `a` is enumerated or written. -/
theorem C2_excluded_subtree_not_visited_witness :
    Scanner.isBlacklisted "a" ["a"] = true ∧ ("a" : String) ≠ "" ∧
    Scanner.listNamesOk
      (.cons (.dir "a" (.cons (.file "b.txt" "hi") .nil)) .nil) = true ∧
    (Scanner.scanList ["a"] false ""
        (.cons (.dir "a" (.cons (.file "b.txt" "hi") .nil)) .nil)
        ⟨0, 0, 0, 0⟩).2.all (fun ev => !(Scanner.eventUnder "a" ev)) = true :=
  ⟨by decide, by decide, by decide,
    C2_excluded_subtree_not_visited ["a"] false
      (.cons (.dir "a" (.cons (.file "b.txt" "hi") .nil)) .nil)
      ⟨0, 0, 0, 0⟩ "a" (by decide) (by decide) (by decide)⟩

namespace Index

theorem processLine_inString_head (s : TSState) (c : Char) (cs : List Char)
    (hs : s.inString = true) :
    ((processLine s (c :: cs)).2).head? = some c := by
  cases cs with
  | nil =>
    rw [processLine.eq_2]
    split_ifs <;> simp_all [TSState.inString]
  | cons d rest =>
    rw [processLine.eq_3]
    split_ifs <;> simp_all [TSState.inString]

theorem processLine_escaped_quote (s : TSState) (cs : List Char)
    (hesc : s.escape = true) (_hstr : s.inSingleQuoteString = true) :
    processLine s ('\'' :: cs) =
      ((processLine { s with escape := false } cs).1,
        '\'' :: (processLine { s with escape := false } cs).2) := by
  cases cs with
  | nil =>
    rw [processLine.eq_2]
    rw [if_pos hesc]
  | cons d rest =>
    rw [processLine.eq_3]
    rw [if_pos hesc]

end Index

/-- **C3**: comment stripping never removes a `//` or `/*` that occurs inside a
string literal.  (i) The concrete input `const u = "http://x"` strips to itself
unchanged.  (ii) In general, whenever the scanning state is inside a
single-quoted, double-quoted or template string, the next character — whatever
it is, including `/` — is emitted verbatim as the head of the output.
(iii) While inside a single-quoted string with the escape flag set (i.e. right
after a backslash), a quote character is emitted and processing continues with
the string flag still set — a backslash-escaped quote does not terminate the
string.  (iv) A concrete escaped-quote input keeps its string intact while the
trailing `//` comment is removed. -/
theorem C3_comment_markers_inside_strings_preserved :
    Index.removeTypeScriptComments "const u = \"http://x\"" = "const u = \"http://x\"" ∧
    (∀ (s : Index.TSState) (c : Char) (cs : List Char), s.inString = true →
      ((Index.processLine s (c :: cs)).2).head? = some c) ∧
    (∀ (s : Index.TSState) (cs : List Char), s.escape = true →
      s.inSingleQuoteString = true →
      Index.processLine s ('\'' :: cs) =
        ((Index.processLine { s with escape := false } cs).1,
          '\'' :: (Index.processLine { s with escape := false } cs).2)) ∧
    Index.removeTypeScriptComments "const a = 'it\\'s' // x" = "const a = 'it\\'s' " :=
  ⟨by decide, Index.processLine_inString_head, Index.processLine_escaped_quote, by decide⟩

/-- Witness for **C3** at concrete in-string states: a `/` right before
another `/` inside a double-quoted string is emitted, and an escaped quote
inside a single-quoted string leaves the string flag set. -/
theorem C3_comment_markers_inside_strings_preserved_witness :
    ((⟨false, false, false, true, false, false⟩ : Index.TSState).inString = true ∧
      ((Index.processLine ⟨false, false, false, true, false, false⟩
        ('/' :: ['/', 'x'])).2).head? = some '/') ∧
    ((⟨false, false, true, false, false, true⟩ : Index.TSState).escape = true ∧
      (⟨false, false, true, false, false, true⟩ : Index.TSState).inSingleQuoteString = true ∧
      Index.processLine (⟨false, false, true, false, false, true⟩ : Index.TSState)
          ('\'' :: ['s']) =
        ((Index.processLine ⟨false, false, true, false, false, false⟩ ['s']).1,
          '\'' :: (Index.processLine ⟨false, false, true, false, false, false⟩ ['s']).2)) :=
  ⟨⟨by decide,
    C3_comment_markers_inside_strings_preserved.2.1
      ⟨false, false, false, true, false, false⟩ '/' ['/', 'x'] (by decide)⟩,
   ⟨by decide, by decide,
    C3_comment_markers_inside_strings_preserved.2.2.1
      ⟨false, false, true, false, false, true⟩ ['s'] (by decide) (by decide)⟩⟩

namespace Index

theorem pl_escape (s : TSState) (c : Char) (cs : List Char) (h1 : s.escape = true) :
    processLine s (c :: cs) =
      ((processLine { s with escape := false } cs).1,
        c :: (processLine { s with escape := false } cs).2) := by
  cases cs with
  | nil => rw [processLine.eq_2, if_pos h1]
  | cons d r => rw [processLine.eq_3, if_pos h1]

theorem pl_backslash (s : TSState) (c : Char) (cs : List Char)
    (h1 : s.escape = false) (h2 : (c == '\\' && s.inString) = true) :
    processLine s (c :: cs) =
      ((processLine { s with escape := true } cs).1,
        c :: (processLine { s with escape := true } cs).2) := by
  have h1' : ¬(s.escape = true) := by simp [h1]
  cases cs with
  | nil => rw [processLine.eq_2, if_neg h1', if_pos h2]
  | cons d r => rw [processLine.eq_3, if_neg h1', if_pos h2]

theorem pl_squote (s : TSState) (c : Char) (cs : List Char)
    (h1 : s.escape = false) (h2 : (c == '\\' && s.inString) = false)
    (h3 : (!s.inSingleLineComment && !s.inMultiLineComment && c == '\'' &&
      !s.inDoubleQuoteString && !s.inTemplateString) = true) :
    processLine s (c :: cs) =
      ((processLine { s with inSingleQuoteString := !s.inSingleQuoteString } cs).1,
        c :: (processLine { s with inSingleQuoteString := !s.inSingleQuoteString } cs).2) := by
  have h1' : ¬(s.escape = true) := by simp [h1]
  have h2' : ¬((c == '\\' && s.inString) = true) := by simp [h2]
  cases cs with
  | nil => rw [processLine.eq_2, if_neg h1', if_neg h2', if_pos h3]
  | cons d r => rw [processLine.eq_3, if_neg h1', if_neg h2', if_pos h3]

theorem pl_dquote (s : TSState) (c : Char) (cs : List Char)
    (h1 : s.escape = false) (h2 : (c == '\\' && s.inString) = false)
    (h3 : (!s.inSingleLineComment && !s.inMultiLineComment && c == '\'' &&
      !s.inDoubleQuoteString && !s.inTemplateString) = false)
    (h4 : (!s.inSingleLineComment && !s.inMultiLineComment && c == '"' &&
      !s.inSingleQuoteString && !s.inTemplateString) = true) :
    processLine s (c :: cs) =
      ((processLine { s with inDoubleQuoteString := !s.inDoubleQuoteString } cs).1,
        c :: (processLine { s with inDoubleQuoteString := !s.inDoubleQuoteString } cs).2) := by
  have h1' : ¬(s.escape = true) := by simp [h1]
  have h2' : ¬((c == '\\' && s.inString) = true) := by simp [h2]
  have h3' := h3
  cases cs with
  | nil => rw [processLine.eq_2, if_neg h1', if_neg h2', if_neg (by simp [h3]), if_pos h4]
  | cons d r => rw [processLine.eq_3, if_neg h1', if_neg h2', if_neg (by simp [h3]), if_pos h4]

theorem pl_backtick (s : TSState) (c : Char) (cs : List Char)
    (h1 : s.escape = false) (h2 : (c == '\\' && s.inString) = false)
    (h3 : (!s.inSingleLineComment && !s.inMultiLineComment && c == '\'' &&
      !s.inDoubleQuoteString && !s.inTemplateString) = false)
    (h4 : (!s.inSingleLineComment && !s.inMultiLineComment && c == '"' &&
      !s.inSingleQuoteString && !s.inTemplateString) = false)
    (h5 : (!s.inSingleLineComment && !s.inMultiLineComment && c == '`' &&
      !s.inSingleQuoteString && !s.inDoubleQuoteString) = true) :
    processLine s (c :: cs) =
      ((processLine { s with inTemplateString := !s.inTemplateString } cs).1,
        c :: (processLine { s with inTemplateString := !s.inTemplateString } cs).2) := by
  have h1' : ¬(s.escape = true) := by simp [h1]
  have h2' : ¬((c == '\\' && s.inString) = true) := by simp [h2]
  cases cs with
  | nil =>
    rw [processLine.eq_2, if_neg h1', if_neg h2', if_neg (by simp [h3]),
      if_neg (by simp [h4]), if_pos h5]
  | cons d r =>
    rw [processLine.eq_3, if_neg h1', if_neg h2', if_neg (by simp [h3]),
      if_neg (by simp [h4]), if_pos h5]

theorem pl_instring (s : TSState) (c : Char) (cs : List Char)
    (h1 : s.escape = false) (h2 : (c == '\\' && s.inString) = false)
    (h3 : (!s.inSingleLineComment && !s.inMultiLineComment && c == '\'' &&
      !s.inDoubleQuoteString && !s.inTemplateString) = false)
    (h4 : (!s.inSingleLineComment && !s.inMultiLineComment && c == '"' &&
      !s.inSingleQuoteString && !s.inTemplateString) = false)
    (h5 : (!s.inSingleLineComment && !s.inMultiLineComment && c == '`' &&
      !s.inSingleQuoteString && !s.inDoubleQuoteString) = false)
    (h6 : s.inString = true) :
    processLine s (c :: cs) =
      ((processLine s cs).1, c :: (processLine s cs).2) := by
  have h1' : ¬(s.escape = true) := by simp [h1]
  have h2' : ¬((c == '\\' && s.inString) = true) := by simp [h2]
  cases cs with
  | nil =>
    rw [processLine.eq_2, if_neg h1', if_neg h2', if_neg (by simp [h3]),
      if_neg (by simp [h4]), if_neg (by simp [h5]), if_pos h6]
  | cons d r =>
    rw [processLine.eq_3, if_neg h1', if_neg h2', if_neg (by simp [h3]),
      if_neg (by simp [h4]), if_neg (by simp [h5]), if_pos h6]

end Index

namespace Index

theorem pl_slstart (s : TSState) (c d : Char) (r : List Char)
    (h1 : s.escape = false) (h2 : (c == '\\' && s.inString) = false)
    (h3 : (!s.inSingleLineComment && !s.inMultiLineComment && c == '\'' &&
      !s.inDoubleQuoteString && !s.inTemplateString) = false)
    (h4 : (!s.inSingleLineComment && !s.inMultiLineComment && c == '"' &&
      !s.inSingleQuoteString && !s.inTemplateString) = false)
    (h5 : (!s.inSingleLineComment && !s.inMultiLineComment && c == '`' &&
      !s.inSingleQuoteString && !s.inDoubleQuoteString) = false)
    (h6 : s.inString = false)
    (h7 : (!s.inSingleLineComment && !s.inMultiLineComment && c == '/' && d == '/') = true) :
    processLine s (c :: d :: r) =
      processLine { s with inSingleLineComment := true } r := by
  rw [processLine.eq_3, if_neg (by simp [h1] : ¬(s.escape = true)),
    if_neg (by simp [h2] : ¬((c == '\\' && s.inString) = true)),
    if_neg (by simp [h3]), if_neg (by simp [h4]), if_neg (by simp [h5]),
    if_neg (by simp [h6]), if_pos h7]

theorem pl_mlstart (s : TSState) (c d : Char) (r : List Char)
    (h1 : s.escape = false) (h2 : (c == '\\' && s.inString) = false)
    (h3 : (!s.inSingleLineComment && !s.inMultiLineComment && c == '\'' &&
      !s.inDoubleQuoteString && !s.inTemplateString) = false)
    (h4 : (!s.inSingleLineComment && !s.inMultiLineComment && c == '"' &&
      !s.inSingleQuoteString && !s.inTemplateString) = false)
    (h5 : (!s.inSingleLineComment && !s.inMultiLineComment && c == '`' &&
      !s.inSingleQuoteString && !s.inDoubleQuoteString) = false)
    (h6 : s.inString = false)
    (h7 : (!s.inSingleLineComment && !s.inMultiLineComment && c == '/' && d == '/') = false)
    (h8 : (!s.inSingleLineComment && !s.inMultiLineComment && c == '/' && d == '*') = true) :
    processLine s (c :: d :: r) =
      processLine { s with inMultiLineComment := true } r := by
  rw [processLine.eq_3, if_neg (by simp [h1] : ¬(s.escape = true)),
    if_neg (by simp [h2] : ¬((c == '\\' && s.inString) = true)),
    if_neg (by simp [h3]), if_neg (by simp [h4]), if_neg (by simp [h5]),
    if_neg (by simp [h6]), if_neg (by simp [h7]), if_pos h8]

theorem pl_mlend (s : TSState) (c d : Char) (r : List Char)
    (h1 : s.escape = false) (h2 : (c == '\\' && s.inString) = false)
    (h3 : (!s.inSingleLineComment && !s.inMultiLineComment && c == '\'' &&
      !s.inDoubleQuoteString && !s.inTemplateString) = false)
    (h4 : (!s.inSingleLineComment && !s.inMultiLineComment && c == '"' &&
      !s.inSingleQuoteString && !s.inTemplateString) = false)
    (h5 : (!s.inSingleLineComment && !s.inMultiLineComment && c == '`' &&
      !s.inSingleQuoteString && !s.inDoubleQuoteString) = false)
    (h6 : s.inString = false)
    (h7 : (!s.inSingleLineComment && !s.inMultiLineComment && c == '/' && d == '/') = false)
    (h8 : (!s.inSingleLineComment && !s.inMultiLineComment && c == '/' && d == '*') = false)
    (h9 : (s.inMultiLineComment && c == '*' && d == '/') = true) :
    processLine s (c :: d :: r) =
      processLine { s with inMultiLineComment := false } r := by
  rw [processLine.eq_3, if_neg (by simp [h1] : ¬(s.escape = true)),
    if_neg (by simp [h2] : ¬((c == '\\' && s.inString) = true)),
    if_neg (by simp [h3]), if_neg (by simp [h4]), if_neg (by simp [h5]),
    if_neg (by simp [h6]), if_neg (by simp [h7]), if_neg (by simp [h8]), if_pos h9]

theorem pl_emitcons (s : TSState) (c d : Char) (r : List Char)
    (h1 : s.escape = false) (h2 : (c == '\\' && s.inString) = false)
    (h3 : (!s.inSingleLineComment && !s.inMultiLineComment && c == '\'' &&
      !s.inDoubleQuoteString && !s.inTemplateString) = false)
    (h4 : (!s.inSingleLineComment && !s.inMultiLineComment && c == '"' &&
      !s.inSingleQuoteString && !s.inTemplateString) = false)
    (h5 : (!s.inSingleLineComment && !s.inMultiLineComment && c == '`' &&
      !s.inSingleQuoteString && !s.inDoubleQuoteString) = false)
    (h6 : s.inString = false)
    (h7 : (!s.inSingleLineComment && !s.inMultiLineComment && c == '/' && d == '/') = false)
    (h8 : (!s.inSingleLineComment && !s.inMultiLineComment && c == '/' && d == '*') = false)
    (h9 : (s.inMultiLineComment && c == '*' && d == '/') = false)
    (h10 : (!s.inSingleLineComment && !s.inMultiLineComment) = true) :
    processLine s (c :: d :: r) =
      ((processLine s (d :: r)).1, c :: (processLine s (d :: r)).2) := by
  rw [processLine.eq_3, if_neg (by simp [h1] : ¬(s.escape = true)),
    if_neg (by simp [h2] : ¬((c == '\\' && s.inString) = true)),
    if_neg (by simp [h3]), if_neg (by simp [h4]), if_neg (by simp [h5]),
    if_neg (by simp [h6]), if_neg (by simp [h7]), if_neg (by simp [h8]),
    if_neg (by simp [h9]), if_pos h10]

theorem pl_consumecons (s : TSState) (c d : Char) (r : List Char)
    (h1 : s.escape = false) (h2 : (c == '\\' && s.inString) = false)
    (h3 : (!s.inSingleLineComment && !s.inMultiLineComment && c == '\'' &&
      !s.inDoubleQuoteString && !s.inTemplateString) = false)
    (h4 : (!s.inSingleLineComment && !s.inMultiLineComment && c == '"' &&
      !s.inSingleQuoteString && !s.inTemplateString) = false)
    (h5 : (!s.inSingleLineComment && !s.inMultiLineComment && c == '`' &&
      !s.inSingleQuoteString && !s.inDoubleQuoteString) = false)
    (h6 : s.inString = false)
    (h7 : (!s.inSingleLineComment && !s.inMultiLineComment && c == '/' && d == '/') = false)
    (h8 : (!s.inSingleLineComment && !s.inMultiLineComment && c == '/' && d == '*') = false)
    (h9 : (s.inMultiLineComment && c == '*' && d == '/') = false)
    (h10 : (!s.inSingleLineComment && !s.inMultiLineComment) = false) :
    processLine s (c :: d :: r) = processLine s (d :: r) := by
  rw [processLine.eq_3, if_neg (by simp [h1] : ¬(s.escape = true)),
    if_neg (by simp [h2] : ¬((c == '\\' && s.inString) = true)),
    if_neg (by simp [h3]), if_neg (by simp [h4]), if_neg (by simp [h5]),
    if_neg (by simp [h6]), if_neg (by simp [h7]), if_neg (by simp [h8]),
    if_neg (by simp [h9]), if_neg (by simp [h10])]

theorem pl_emitnil (s : TSState) (c : Char)
    (h1 : s.escape = false) (h2 : (c == '\\' && s.inString) = false)
    (h3 : (!s.inSingleLineComment && !s.inMultiLineComment && c == '\'' &&
      !s.inDoubleQuoteString && !s.inTemplateString) = false)
    (h4 : (!s.inSingleLineComment && !s.inMultiLineComment && c == '"' &&
      !s.inSingleQuoteString && !s.inTemplateString) = false)
    (h5 : (!s.inSingleLineComment && !s.inMultiLineComment && c == '`' &&
      !s.inSingleQuoteString && !s.inDoubleQuoteString) = false)
    (h6 : s.inString = false)
    (h10 : (!s.inSingleLineComment && !s.inMultiLineComment) = true) :
    processLine s [c] = (s, [c]) := by
  rw [processLine.eq_2, if_neg (by simp [h1] : ¬(s.escape = true)),
    if_neg (by simp [h2] : ¬((c == '\\' && s.inString) = true)),
    if_neg (by simp [h3]), if_neg (by simp [h4]), if_neg (by simp [h5]),
    if_neg (by simp [h6]), if_pos h10]

theorem pl_consumenil (s : TSState) (c : Char)
    (h1 : s.escape = false) (h2 : (c == '\\' && s.inString) = false)
    (h3 : (!s.inSingleLineComment && !s.inMultiLineComment && c == '\'' &&
      !s.inDoubleQuoteString && !s.inTemplateString) = false)
    (h4 : (!s.inSingleLineComment && !s.inMultiLineComment && c == '"' &&
      !s.inSingleQuoteString && !s.inTemplateString) = false)
    (h5 : (!s.inSingleLineComment && !s.inMultiLineComment && c == '`' &&
      !s.inSingleQuoteString && !s.inDoubleQuoteString) = false)
    (h6 : s.inString = false)
    (h10 : (!s.inSingleLineComment && !s.inMultiLineComment) = false) :
    processLine s [c] = (s, []) := by
  rw [processLine.eq_2, if_neg (by simp [h1] : ¬(s.escape = true)),
    if_neg (by simp [h2] : ¬((c == '\\' && s.inString) = true)),
    if_neg (by simp [h3]), if_neg (by simp [h4]), if_neg (by simp [h5]),
    if_neg (by simp [h6]), if_neg (by simp [h10])]

end Index

namespace Index

theorem mirror_eq_self (s : TSState) (h1 : s.inSingleLineComment = false)
    (h2 : s.inMultiLineComment = false) : mirror s = s := by
  cases s
  simp_all [mirror]

theorem comments_off_of_inString (s : TSState) (hok : s.Ok)
    (h : s.inString = true) :
    s.inSingleLineComment = false ∧ s.inMultiLineComment = false := by
  cases hsl : s.inSingleLineComment
  · cases hml : s.inMultiLineComment
    · exact ⟨rfl, rfl⟩
    · obtain ⟨a, b, c, _⟩ := hok.1 (Or.inr hml)
      simp [TSState.inString, a, b, c] at h
  · obtain ⟨a, b, c, _⟩ := hok.1 (Or.inl hsl)
    simp [TSState.inString, a, b, c] at h

theorem pl_head_emit (s : TSState) (d : Char) (t : List Char)
    (hesc : s.escape = false) (hstr : s.inString = false)
    (hSL : s.inSingleLineComment = false) (hML : s.inMultiLineComment = false)
    (hd : (d == '/') = false) :
    ∃ o, (processLine s (d :: t)).2 = d :: o := by
  have hbs : (d == '\\' && s.inString) = false := by simp [hstr]
  have h10 : (!s.inSingleLineComment && !s.inMultiLineComment) = true := by
    simp [hSL, hML]
  by_cases h3 : (!s.inSingleLineComment && !s.inMultiLineComment && d == '\'' &&
      !s.inDoubleQuoteString && !s.inTemplateString) = true
  · rw [pl_squote s d t hesc hbs h3]
    exact ⟨_, rfl⟩
  · have h3f : (!s.inSingleLineComment && !s.inMultiLineComment && d == '\'' &&
        !s.inDoubleQuoteString && !s.inTemplateString) = false := by
      simpa using h3
    by_cases h4 : (!s.inSingleLineComment && !s.inMultiLineComment && d == '"' &&
        !s.inSingleQuoteString && !s.inTemplateString) = true
    · rw [pl_dquote s d t hesc hbs h3f h4]
      exact ⟨_, rfl⟩
    · have h4f : (!s.inSingleLineComment && !s.inMultiLineComment && d == '"' &&
          !s.inSingleQuoteString && !s.inTemplateString) = false := by simpa using h4
      by_cases h5 : (!s.inSingleLineComment && !s.inMultiLineComment && d == '`' &&
          !s.inSingleQuoteString && !s.inDoubleQuoteString) = true
      · rw [pl_backtick s d t hesc hbs h3f h4f h5]
        exact ⟨_, rfl⟩
      · have h5f : (!s.inSingleLineComment && !s.inMultiLineComment && d == '`' &&
            !s.inSingleQuoteString && !s.inDoubleQuoteString) = false := by simpa using h5
        cases t with
        | nil =>
          rw [pl_emitnil s d hesc hbs h3f h4f h5f hstr h10]
          exact ⟨[], rfl⟩
        | cons e r =>
          rw [pl_emitcons s d e r hesc hbs h3f h4f h5f hstr
            (by simp [hd]) (by simp [hd]) (by simp [hML]) h10]
          exact ⟨_, rfl⟩

end Index

namespace Index

theorem pass2_loop (n : Nat) : ∀ (cs : List Char) (s : TSState),
    cs.length ≤ n → s.Ok →
    processLine (mirror s) (processLine s cs).2 =
      (mirror (processLine s cs).1, (processLine s cs).2) ∧
    (processLine s cs).1.Ok ∧
    (∀ a ∈ (processLine s cs).2, a ∈ cs) := by
  induction n with
  | zero =>
    intro cs s hlen hok
    obtain rfl : cs = [] := List.eq_nil_of_length_eq_zero (Nat.le_zero.mp hlen)
    refine ⟨?_, hok, ?_⟩ <;> simp [processLine.eq_1]
  | succ n ih =>
    intro cs s hlen hok
    cases cs with
    | nil =>
      refine ⟨?_, hok, ?_⟩ <;> simp [processLine.eq_1]
    | cons c cs' =>
      have hlen' : cs'.length ≤ n := by simp at hlen; omega
      by_cases h1 : s.escape = true
      · -- escape branch
        have hstr : s.inString = true := hok.2 h1
        obtain ⟨hSL, hML⟩ := comments_off_of_inString s hok hstr
        have hms : mirror s = s := mirror_eq_self s hSL hML
        have hOk' : TSState.Ok { s with escape := false } := by
          refine ⟨fun hc => ?_, fun he => ?_⟩
          · rcases hc with h | h
            · rw [hSL] at h; exact absurd h (by simp)
            · rw [hML] at h; exact absurd h (by simp)
          · exact absurd he (by simp)
        have IH := ih cs' { s with escape := false } hlen' hOk'
        have hmu : mirror { s with escape := false } = { s with escape := false } :=
          mirror_eq_self _ hSL hML
        rw [hmu] at IH
        rw [pl_escape s c cs' h1]
        try dsimp only
        refine ⟨?_, IH.2.1, ?_⟩
        · rw [hms, pl_escape s c _ h1]
          try dsimp only
          rw [IH.1]
        · intro a ha
          rcases List.mem_cons.mp ha with rfl | h
          · exact List.mem_cons_self _ _
          · exact List.mem_cons_of_mem _ (IH.2.2 a h)
      · have h1f : s.escape = false := by simpa using h1
        by_cases h2 : (c == '\\' && s.inString) = true
        · -- backslash inside string
          have hstr : s.inString = true := ((Bool.and_eq_true _ _).mp h2).2
          obtain ⟨hSL, hML⟩ := comments_off_of_inString s hok hstr
          have hms : mirror s = s := mirror_eq_self s hSL hML
          have hOk' : TSState.Ok { s with escape := true } := by
            refine ⟨fun hc => ?_, fun _ => hstr⟩
            rcases hc with h | h
            · rw [hSL] at h; exact absurd h (by simp)
            · rw [hML] at h; exact absurd h (by simp)
          have IH := ih cs' { s with escape := true } hlen' hOk'
          have hmu : mirror { s with escape := true } = { s with escape := true } :=
            mirror_eq_self _ hSL hML
          rw [hmu] at IH
          rw [pl_backslash s c cs' h1f h2]
          try dsimp only
          refine ⟨?_, IH.2.1, ?_⟩
          · rw [hms, pl_backslash s c _ h1f h2]
            try dsimp only
            rw [IH.1]
          · intro a ha
            rcases List.mem_cons.mp ha with rfl | h
            · exact List.mem_cons_self _ _
            · exact List.mem_cons_of_mem _ (IH.2.2 a h)
        · have h2f : (c == '\\' && s.inString) = false := by simpa using h2
          by_cases h3 : (!s.inSingleLineComment && !s.inMultiLineComment && c == '\'' &&
              !s.inDoubleQuoteString && !s.inTemplateString) = true
          · -- single-quote toggle
            have hsm : s.inSingleLineComment = false ∧ s.inMultiLineComment = false := by
              have h := h3
              simp only [Bool.and_eq_true] at h
              exact ⟨by simpa using h.1.1.1.1, by simpa using h.1.1.1.2⟩
            have hms : mirror s = s := mirror_eq_self s hsm.1 hsm.2
            have hOk' : TSState.Ok
                { s with inSingleQuoteString := !s.inSingleQuoteString } := by
              refine ⟨fun hc => ?_, fun he => ?_⟩
              · rcases hc with h | h
                · rw [hsm.1] at h; exact absurd h (by simp)
                · rw [hsm.2] at h; exact absurd h (by simp)
              · exact absurd he (by simp [h1f])
            have IH := ih cs' { s with inSingleQuoteString := !s.inSingleQuoteString }
              hlen' hOk'
            have hmu : mirror { s with inSingleQuoteString := !s.inSingleQuoteString } =
                { s with inSingleQuoteString := !s.inSingleQuoteString } :=
              mirror_eq_self _ hsm.1 hsm.2
            rw [hmu] at IH
            rw [pl_squote s c cs' h1f h2f h3]
            try dsimp only
            refine ⟨?_, IH.2.1, ?_⟩
            · rw [hms, pl_squote s c _ h1f h2f h3]
              try dsimp only
              rw [IH.1]
            · intro a ha
              rcases List.mem_cons.mp ha with rfl | h
              · exact List.mem_cons_self _ _
              · exact List.mem_cons_of_mem _ (IH.2.2 a h)
          · have h3f : (!s.inSingleLineComment && !s.inMultiLineComment && c == '\'' &&
                !s.inDoubleQuoteString && !s.inTemplateString) = false := by simpa using h3
            by_cases h4 : (!s.inSingleLineComment && !s.inMultiLineComment && c == '"' &&
                !s.inSingleQuoteString && !s.inTemplateString) = true
            · -- double-quote toggle
              have hsm : s.inSingleLineComment = false ∧ s.inMultiLineComment = false := by
                have h := h4
                simp only [Bool.and_eq_true] at h
                exact ⟨by simpa using h.1.1.1.1, by simpa using h.1.1.1.2⟩
              have hms : mirror s = s := mirror_eq_self s hsm.1 hsm.2
              have hOk' : TSState.Ok
                  { s with inDoubleQuoteString := !s.inDoubleQuoteString } := by
                refine ⟨fun hc => ?_, fun he => ?_⟩
                · rcases hc with h | h
                  · rw [hsm.1] at h; exact absurd h (by simp)
                  · rw [hsm.2] at h; exact absurd h (by simp)
                · exact absurd he (by simp [h1f])
              have IH := ih cs' { s with inDoubleQuoteString := !s.inDoubleQuoteString }
                hlen' hOk'
              have hmu : mirror { s with inDoubleQuoteString := !s.inDoubleQuoteString } =
                  { s with inDoubleQuoteString := !s.inDoubleQuoteString } :=
                mirror_eq_self _ hsm.1 hsm.2
              rw [hmu] at IH
              rw [pl_dquote s c cs' h1f h2f h3f h4]
              try dsimp only
              refine ⟨?_, IH.2.1, ?_⟩
              · rw [hms, pl_dquote s c _ h1f h2f h3f h4]
                try dsimp only
                rw [IH.1]
              · intro a ha
                rcases List.mem_cons.mp ha with rfl | h
                · exact List.mem_cons_self _ _
                · exact List.mem_cons_of_mem _ (IH.2.2 a h)
            · have h4f : (!s.inSingleLineComment && !s.inMultiLineComment && c == '"' &&
                  !s.inSingleQuoteString && !s.inTemplateString) = false := by simpa using h4
              by_cases h5 : (!s.inSingleLineComment && !s.inMultiLineComment && c == '`' &&
                  !s.inSingleQuoteString && !s.inDoubleQuoteString) = true
              · -- backtick toggle
                have hsm : s.inSingleLineComment = false ∧ s.inMultiLineComment = false := by
                  have h := h5
                  simp only [Bool.and_eq_true] at h
                  exact ⟨by simpa using h.1.1.1.1, by simpa using h.1.1.1.2⟩
                have hms : mirror s = s := mirror_eq_self s hsm.1 hsm.2
                have hOk' : TSState.Ok
                    { s with inTemplateString := !s.inTemplateString } := by
                  refine ⟨fun hc => ?_, fun he => ?_⟩
                  · rcases hc with h | h
                    · rw [hsm.1] at h; exact absurd h (by simp)
                    · rw [hsm.2] at h; exact absurd h (by simp)
                  · exact absurd he (by simp [h1f])
                have IH := ih cs' { s with inTemplateString := !s.inTemplateString }
                  hlen' hOk'
                have hmu : mirror { s with inTemplateString := !s.inTemplateString } =
                    { s with inTemplateString := !s.inTemplateString } :=
                  mirror_eq_self _ hsm.1 hsm.2
                rw [hmu] at IH
                rw [pl_backtick s c cs' h1f h2f h3f h4f h5]
                try dsimp only
                refine ⟨?_, IH.2.1, ?_⟩
                · rw [hms, pl_backtick s c _ h1f h2f h3f h4f h5]
                  try dsimp only
                  rw [IH.1]
                · intro a ha
                  rcases List.mem_cons.mp ha with rfl | h
                  · exact List.mem_cons_self _ _
                  · exact List.mem_cons_of_mem _ (IH.2.2 a h)
              · have h5f : (!s.inSingleLineComment && !s.inMultiLineComment && c == '`' &&
                    !s.inSingleQuoteString && !s.inDoubleQuoteString) = false := by
                  simpa using h5
                by_cases h6 : s.inString = true
                · -- plain character inside a string
                  obtain ⟨hSL, hML⟩ := comments_off_of_inString s hok h6
                  have hms : mirror s = s := mirror_eq_self s hSL hML
                  have IH := ih cs' s hlen' hok
                  rw [hms] at IH
                  rw [pl_instring s c cs' h1f h2f h3f h4f h5f h6]
                  try dsimp only
                  refine ⟨?_, IH.2.1, ?_⟩
                  · rw [hms, pl_instring s c _ h1f h2f h3f h4f h5f h6]
                    try dsimp only
                    rw [IH.1]
                  · intro a ha
                    rcases List.mem_cons.mp ha with rfl | h
                    · exact List.mem_cons_self _ _
                    · exact List.mem_cons_of_mem _ (IH.2.2 a h)
                · have h6f : s.inString = false := by simpa using h6
                  have hflags : s.inSingleQuoteString = false ∧
                      s.inDoubleQuoteString = false ∧ s.inTemplateString = false := by
                    have h := h6f
                    simp [TSState.inString] at h
                    exact ⟨h.1.1, h.1.2, h.2⟩
                  cases cs' with
                  | nil =>
                    by_cases h10 : (!s.inSingleLineComment && !s.inMultiLineComment) = true
                    · -- lone character emitted
                      have hsm : s.inSingleLineComment = false ∧
                          s.inMultiLineComment = false := by
                        simpa [Bool.and_eq_true, Bool.not_eq_true] using h10
                      have hms : mirror s = s := mirror_eq_self s hsm.1 hsm.2
                      rw [pl_emitnil s c h1f h2f h3f h4f h5f h6f h10]
                      try dsimp only
                      refine ⟨?_, hok, ?_⟩
                      · rw [hms, pl_emitnil s c h1f h2f h3f h4f h5f h6f h10]
                      · intro a ha
                        exact ha
                    · -- lone character consumed inside a comment
                      have h10f : (!s.inSingleLineComment && !s.inMultiLineComment) = false := by
                        simpa using h10
                      rw [pl_consumenil s c h1f h2f h3f h4f h5f h6f h10f]
                      try dsimp only
                      refine ⟨?_, hok, ?_⟩
                      · rw [processLine.eq_1]
                      · intro a ha
                        simp at ha
                  | cons d r =>
                    have hlenr : r.length ≤ n := by simp at hlen; omega
                    have hlendr : (d :: r).length ≤ n := by simp at hlen ⊢; omega
                    by_cases h7 : (!s.inSingleLineComment && !s.inMultiLineComment &&
                        c == '/' && d == '/') = true
                    · -- line-comment start
                      have hOk' : TSState.Ok { s with inSingleLineComment := true } := by
                        refine ⟨fun _ => ⟨hflags.1, hflags.2.1, hflags.2.2, h1f⟩,
                          fun he => absurd he (by simp [h1f])⟩
                      have IH := ih r { s with inSingleLineComment := true } hlenr hOk'
                      rw [pl_slstart s c d r h1f h2f h3f h4f h5f h6f h7]
                      refine ⟨IH.1, IH.2.1, ?_⟩
                      intro a ha
                      exact List.mem_cons_of_mem _ (List.mem_cons_of_mem _ (IH.2.2 a ha))
                    · have h7f : (!s.inSingleLineComment && !s.inMultiLineComment &&
                          c == '/' && d == '/') = false := by simpa using h7
                      by_cases h8 : (!s.inSingleLineComment && !s.inMultiLineComment &&
                          c == '/' && d == '*') = true
                      · -- block-comment start
                        have hOk' : TSState.Ok { s with inMultiLineComment := true } := by
                          refine ⟨fun _ => ⟨hflags.1, hflags.2.1, hflags.2.2, h1f⟩,
                            fun he => absurd he (by simp [h1f])⟩
                        have IH := ih r { s with inMultiLineComment := true } hlenr hOk'
                        rw [pl_mlstart s c d r h1f h2f h3f h4f h5f h6f h7f h8]
                        refine ⟨IH.1, IH.2.1, ?_⟩
                        intro a ha
                        exact List.mem_cons_of_mem _ (List.mem_cons_of_mem _ (IH.2.2 a ha))
                      · have h8f : (!s.inSingleLineComment && !s.inMultiLineComment &&
                            c == '/' && d == '*') = false := by simpa using h8
                        by_cases h9 : (s.inMultiLineComment && c == '*' && d == '/') = true
                        · -- block-comment end
                          have hOk' : TSState.Ok { s with inMultiLineComment := false } := by
                            refine ⟨fun hc => ?_, hok.2⟩
                            rcases hc with h | h
                            · exact hok.1 (Or.inl h)
                            · exact absurd h (by simp)
                          have IH := ih r { s with inMultiLineComment := false } hlenr hOk'
                          rw [pl_mlend s c d r h1f h2f h3f h4f h5f h6f h7f h8f h9]
                          refine ⟨IH.1, IH.2.1, ?_⟩
                          intro a ha
                          exact List.mem_cons_of_mem _ (List.mem_cons_of_mem _ (IH.2.2 a ha))
                        · have h9f : (s.inMultiLineComment && c == '*' && d == '/') = false := by
                            simpa using h9
                          by_cases h10 : (!s.inSingleLineComment &&
                              !s.inMultiLineComment) = true
                          · -- ordinary emitted character
                            have hsm : s.inSingleLineComment = false ∧
                                s.inMultiLineComment = false := by
                              simpa [Bool.and_eq_true, Bool.not_eq_true] using h10
                            have hms : mirror s = s := mirror_eq_self s hsm.1 hsm.2
                            have IH := ih (d :: r) s hlendr hok
                            rw [hms] at IH
                            rw [pl_emitcons s c d r h1f h2f h3f h4f h5f h6f h7f h8f h9f h10]
                            try dsimp only
                            refine ⟨?_, IH.2.1, ?_⟩
                            · rw [hms]
                              by_cases hc : (c == '/') = true
                              · simp only [h10, hc, Bool.true_and] at h7f h8f
                                obtain ⟨o, ho⟩ :=
                                  pl_head_emit s d r h1f h6f hsm.1 hsm.2 h7f
                                rw [ho]
                                rw [ho] at IH
                                rw [pl_emitcons s c d o h1f h2f h3f h4f h5f h6f
                                  (by simp [h7f]) (by simp [h8f]) (by simp [hsm.2]) h10]
                                try dsimp only
                                rw [IH.1]
                              · have hcf : (c == '/') = false := by simpa using hc
                                cases hout : (processLine s (d :: r)).2 with
                                | nil =>
                                  rw [pl_emitnil s c h1f h2f h3f h4f h5f h6f h10]
                                  have heq := IH.1
                                  rw [hout, processLine.eq_1] at heq
                                  have hs : s = mirror (processLine s (d :: r)).1 :=
                                    congrArg Prod.fst heq
                                  rw [← hs]
                                | cons e o =>
                                  rw [pl_emitcons s c e o h1f h2f h3f h4f h5f h6f
                                    (by simp [hcf]) (by simp [hcf]) (by simp [hsm.2]) h10]
                                  try dsimp only
                                  have heq := IH.1
                                  rw [hout] at heq
                                  rw [heq]
                            · intro a ha
                              rcases List.mem_cons.mp ha with rfl | h
                              · exact List.mem_cons_self _ _
                              · exact List.mem_cons_of_mem _ (IH.2.2 a h)
                          · -- character consumed inside a comment
                            have h10f : (!s.inSingleLineComment &&
                                !s.inMultiLineComment) = false := by simpa using h10
                            have IH := ih (d :: r) s hlendr hok
                            rw [pl_consumecons s c d r h1f h2f h3f h4f h5f h6f h7f h8f
                              h9f h10f]
                            refine ⟨IH.1, IH.2.1, ?_⟩
                            intro a ha
                            exact List.mem_cons_of_mem _ (IH.2.2 a ha)

end Index

namespace JsStr

theorem splitOnChar_joinChar (sep : Char) : ∀ (L : List (List Char)), L ≠ [] →
    (∀ l ∈ L, ∀ x ∈ l, x ≠ sep) → splitOnChar sep (joinChar sep L) = L := by
  intro L
  induction L with
  | nil => intro h; exact absurd rfl h
  | cons l rest ih =>
    intro _ hfree
    cases rest with
    | nil =>
      rw [show joinChar sep [l] = l from rfl]
      exact splitOnChar_no_sep sep l (hfree l (by simp))
    | cons l' ls =>
      rw [show joinChar sep (l :: l' :: ls) = l ++ sep :: joinChar sep (l' :: ls) from rfl]
      rw [splitOnChar_seg_append sep l _ (hfree l (by simp))]
      rw [ih (by simp) (fun m hm x hx => hfree m (by simp [hm]) x hx)]

theorem splitOnChar_sep_free (sep : Char) : ∀ (x : List Char),
    ∀ l ∈ splitOnChar sep x, ∀ c ∈ l, c ≠ sep := by
  intro x
  induction x with
  | nil =>
    intro l hl c hc
    simp [splitOnChar] at hl
    subst hl
    simp at hc
  | cons a rest ih =>
    intro l hl c hc
    rw [splitOnChar_cons] at hl
    by_cases h : a = sep
    · rw [if_pos h] at hl
      rcases List.mem_cons.mp hl with rfl | hl'
      · simp at hc
      · exact ih l hl' c hc
    · rw [if_neg h] at hl
      cases hr : splitOnChar sep rest with
      | nil => exact absurd hr (splitOnChar_ne_nil sep rest)
      | cons s0 t =>
        rw [hr] at hl
        rcases List.mem_cons.mp hl with rfl | hl'
        · rcases List.mem_cons.mp hc with rfl | hc'
          · exact h
          · exact ih s0 (by rw [hr]; exact List.mem_cons_self _ _) c hc'
        · exact ih l (by rw [hr]; exact List.mem_cons_of_mem _ hl') c hc

end JsStr

namespace Index

theorem initial_Ok : TSState.Ok TSState.initial := by
  constructor
  · intro hc
    rcases hc with h | h <;> exact absurd h (by decide)
  · intro h
    exact absurd h (by decide)

theorem Ok_clearSL (s : TSState) (h : s.Ok) :
    TSState.Ok { s with inSingleLineComment := false } := by
  constructor
  · intro hc
    rcases hc with hx | hx
    · exact absurd hx (by simp)
    · exact h.1 (Or.inr hx)
  · exact h.2

theorem processLines_cons (s : TSState) (l : List Char) (rest : List (List Char)) :
    processLines s (l :: rest) =
      if !(processLine s l).1.inMultiLineComment ||
          (processLine s l).2.any (fun c => !c.isWhitespace) then
        (processLine s l).2 ::
          processLines { (processLine s l).1 with inSingleLineComment := false } rest
      else
        processLines { (processLine s l).1 with inSingleLineComment := false } rest := rfl

theorem string_line_quote : ∀ (l : List Char) (s : TSState), s.Ok → s.inString = true →
    (processLine s l).1.inString = true ∨
    ∃ c ∈ (processLine s l).2, c = '\'' ∨ c = '"' ∨ c = '`' := by
  intro l
  induction l with
  | nil =>
    intro s _ hstr
    left
    rw [processLine.eq_1]
    exact hstr
  | cons c cs' ih =>
    intro s hok hstr
    obtain ⟨hSL, hML⟩ := comments_off_of_inString s hok hstr
    by_cases h1 : s.escape = true
    · have hOk' : TSState.Ok { s with escape := false } := by
        refine ⟨fun hc => ?_, fun he => ?_⟩
        · rcases hc with h | h
          · rw [hSL] at h; exact absurd h (by simp)
          · rw [hML] at h; exact absurd h (by simp)
        · exact absurd he (by simp)
      rw [pl_escape s c cs' h1]
      try dsimp only
      rcases ih { s with escape := false } hOk' hstr with hfin | ⟨q, hq, hqs⟩
      · left; exact hfin
      · right; exact ⟨q, List.mem_cons_of_mem _ hq, hqs⟩
    · have h1f : s.escape = false := by simpa using h1
      by_cases h2 : (c == '\\' && s.inString) = true
      · have hOk' : TSState.Ok { s with escape := true } := by
          refine ⟨fun hc => ?_, fun _ => hstr⟩
          rcases hc with h | h
          · rw [hSL] at h; exact absurd h (by simp)
          · rw [hML] at h; exact absurd h (by simp)
        rw [pl_backslash s c cs' h1f h2]
        try dsimp only
        rcases ih { s with escape := true } hOk' hstr with hfin | ⟨q, hq, hqs⟩
        · left; exact hfin
        · right; exact ⟨q, List.mem_cons_of_mem _ hq, hqs⟩
      · have h2f : (c == '\\' && s.inString) = false := by simpa using h2
        by_cases h3 : (!s.inSingleLineComment && !s.inMultiLineComment && c == '\'' &&
            !s.inDoubleQuoteString && !s.inTemplateString) = true
        · rw [pl_squote s c cs' h1f h2f h3]
          try dsimp only
          right
          refine ⟨c, List.mem_cons_self _ _, Or.inl ?_⟩
          have h := h3
          simp only [Bool.and_eq_true] at h
          exact eq_of_beq h.1.1.2
        · have h3f : (!s.inSingleLineComment && !s.inMultiLineComment && c == '\'' &&
              !s.inDoubleQuoteString && !s.inTemplateString) = false := by simpa using h3
          by_cases h4 : (!s.inSingleLineComment && !s.inMultiLineComment && c == '"' &&
              !s.inSingleQuoteString && !s.inTemplateString) = true
          · rw [pl_dquote s c cs' h1f h2f h3f h4]
            try dsimp only
            right
            refine ⟨c, List.mem_cons_self _ _, Or.inr (Or.inl ?_)⟩
            have h := h4
            simp only [Bool.and_eq_true] at h
            exact eq_of_beq h.1.1.2
          · have h4f : (!s.inSingleLineComment && !s.inMultiLineComment && c == '"' &&
                !s.inSingleQuoteString && !s.inTemplateString) = false := by simpa using h4
            by_cases h5 : (!s.inSingleLineComment && !s.inMultiLineComment && c == '`' &&
                !s.inSingleQuoteString && !s.inDoubleQuoteString) = true
            · rw [pl_backtick s c cs' h1f h2f h3f h4f h5]
              try dsimp only
              right
              refine ⟨c, List.mem_cons_self _ _, Or.inr (Or.inr ?_)⟩
              have h := h5
              simp only [Bool.and_eq_true] at h
              exact eq_of_beq h.1.1.2
            · have h5f : (!s.inSingleLineComment && !s.inMultiLineComment && c == '`' &&
                  !s.inSingleQuoteString && !s.inDoubleQuoteString) = false := by
                simpa using h5
              by_cases h6 : s.inString = true
              · rw [pl_instring s c cs' h1f h2f h3f h4f h5f h6]
                try dsimp only
                rcases ih s hok hstr with hfin | ⟨q, hq, hqs⟩
                · left; exact hfin
                · right; exact ⟨q, List.mem_cons_of_mem _ hq, hqs⟩
              · exact absurd hstr h6

end Index

namespace Index

theorem processLines_freeness : ∀ (ls : List (List Char)) (s : TSState), s.Ok →
    (∀ l ∈ ls, ∀ c ∈ l, c ≠ '\n') →
    ∀ o ∈ processLines s ls, ∀ c ∈ o, c ≠ '\n' := by
  intro ls
  induction ls with
  | nil =>
    intro s _ _ o ho
    simp [processLines] at ho
  | cons l rest ih =>
    intro s hok hfree o ho
    have P := pass2_loop l.length l s (le_refl _) hok
    have hOk' := Ok_clearSL _ P.2.1
    rw [processLines_cons] at ho
    by_cases hpush : (!(processLine s l).1.inMultiLineComment ||
        (processLine s l).2.any (fun c => !c.isWhitespace)) = true
    · rw [if_pos hpush] at ho
      rcases List.mem_cons.mp ho with rfl | ho'
      · intro c hc
        exact hfree l (by simp) c (P.2.2 c hc)
      · exact ih _ hOk' (fun m hm => hfree m (by simp [hm])) o ho'
    · rw [if_neg hpush] at ho
      exact ih _ hOk' (fun m hm => hfree m (by simp [hm])) o ho

theorem processLines_pass2 : ∀ (ls : List (List Char)) (s : TSState), s.Ok →
    processLines (mirror s) (processLines s ls) = processLines s ls := by
  intro ls
  induction ls with
  | nil =>
    intro s _
    simp [processLines]
  | cons l rest ih =>
    intro s hok
    have P := pass2_loop l.length l s (le_refl _) hok
    have hOk' := Ok_clearSL _ P.2.1
    rw [processLines_cons s l rest]
    by_cases hpush : (!(processLine s l).1.inMultiLineComment ||
        (processLine s l).2.any (fun c => !c.isWhitespace)) = true
    · rw [if_pos hpush]
      have key : processLines (mirror s)
          ((processLine s l).2 ::
            processLines { (processLine s l).1 with inSingleLineComment := false } rest) =
          (processLine s l).2 ::
            processLines (mirror { (processLine s l).1 with inSingleLineComment := false })
              (processLines { (processLine s l).1 with inSingleLineComment := false } rest) := by
        rw [processLines_cons, P.1]
        simp [mirror]
      rw [key, ih _ hOk']
    · have hcond : (!(processLine s l).1.inMultiLineComment ||
          (processLine s l).2.any (fun c => !c.isWhitespace)) = false := by
        simpa using hpush
      rw [if_neg hpush]
      have hML : (processLine s l).1.inMultiLineComment = true := by
        rcases Bool.or_eq_false_iff.mp hcond with ⟨ha, _⟩
        simpa using ha
      have hws : (processLine s l).2.any (fun c => !c.isWhitespace) = false :=
        (Bool.or_eq_false_iff.mp hcond).2
      have hflags1 := (P.2.1).1 (Or.inr hML)
      have hstr : s.inString = false := by
        by_contra hx
        have hx' : s.inString = true := by simpa using hx
        rcases string_line_quote l s hok hx' with hfin | ⟨q, hq, hqs⟩
        · simp [TSState.inString, hflags1.1, hflags1.2.1, hflags1.2.2.1] at hfin
        · have hqw : q.isWhitespace = true := by
            have h := hws
            simp only [List.any_eq_false] at h
            simpa using h q hq
          rcases hqs with rfl | rfl | rfl <;> exact absurd hqw (by decide)
      have hesc : s.escape = false := by
        by_contra hx
        have hx' : s.escape = true := by simpa using hx
        have := hok.2 hx'
        rw [hstr] at this
        exact Bool.noConfusion this
      have hsflags : s.inSingleQuoteString = false ∧ s.inDoubleQuoteString = false ∧
          s.inTemplateString = false := by
        have h := hstr
        simp [TSState.inString] at h
        exact ⟨h.1.1, h.1.2, h.2⟩
      have hms : mirror s = TSState.initial := by
        cases s
        simp_all [mirror, TSState.initial]
      have hms' : mirror { (processLine s l).1 with inSingleLineComment := false } =
          TSState.initial := by
        have h1 := hflags1.1
        have h2 := hflags1.2.1
        have h3 := hflags1.2.2.1
        have h4 := hflags1.2.2.2
        cases hq : (processLine s l).1
        rw [hq] at h1 h2 h3 h4
        simp_all [mirror, TSState.initial]
      rw [hms, ← hms', ih _ hOk']

end Index

namespace Index

theorem removeTS_idem (x : String) :
    removeTypeScriptComments (removeTypeScriptComments x) = removeTypeScriptComments x := by
  unfold removeTypeScriptComments
  cases hOUT : processLines TSState.initial (JsStr.splitOnChar '\n' x.data) with
  | nil => rfl
  | cons o out' =>
    have hfreeOUT := processLines_freeness (JsStr.splitOnChar '\n' x.data) TSState.initial
      initial_Ok (JsStr.splitOnChar_sep_free '\n' x.data)
    rw [hOUT] at hfreeOUT
    have hrt := JsStr.splitOnChar_joinChar '\n' (o :: out') (by simp) hfreeOUT
    have h2 := processLines_pass2 (JsStr.splitOnChar '\n' x.data) TSState.initial initial_Ok
    rw [hOUT] at h2
    show String.mk (JsStr.joinChar '\n' (processLines TSState.initial
        (JsStr.splitOnChar '\n' (JsStr.joinChar '\n' (o :: out'))))) =
      String.mk (JsStr.joinChar '\n' (o :: out'))
    rw [hrt]
    rw [show processLines TSState.initial (o :: out') = o :: out' from h2]

end Index

/-- C8 counterexample: SQL comment stripping is not idempotent. The input is
the 9-character string `a`, hyphen, block comment containing `x`, hyphen, `b`.
The first pass deletes the block comment and glues the two hyphens together
into `"a--b"`; the second pass then reads `--b` as a line comment and deletes
it, yielding `"a"`. (The external strippers passed for the c-style and JSON
categories are irrelevant: the SQL branch never calls them.) -/
theorem C8_counterexample :
    Stripper.stripComments (fun s => .ok s) (fun s => .ok s)
        (Stripper.stripComments (fun s => .ok s) (fun s => .ok s) "a-/*x*/-b" .SQL) .SQL ≠
      Stripper.stripComments (fun s => .ok s) (fun s => .ok s) "a-/*x*/-b" .SQL := by
  decide

/-- C8 (amended): of the repository's own strippers, the c-style one
(`removeTypeScriptComments` in `src/index.ts`) and the JSON one
(`removeJsonComments`, which delegates to it) are idempotent on every input,
but the SQL one (`stripSqlComments` in the comment-stripping module) is not:
deleting a block comment can fuse surrounding characters into a new `--` line
comment that a second pass deletes. -/
theorem C8_cstyle_json_idempotent_sql_not :
    (∀ x : String, Index.removeTypeScriptComments (Index.removeTypeScriptComments x) =
        Index.removeTypeScriptComments x) ∧
    (∀ x : String, Index.removeJsonComments (Index.removeJsonComments x) =
        Index.removeJsonComments x) ∧
    ¬ (∀ x : String, Stripper.stripSqlComments (Stripper.stripSqlComments x) =
        Stripper.stripSqlComments x) := by
  refine ⟨fun x => Index.removeTS_idem x, fun x => Index.removeTS_idem x, fun hall => ?_⟩
  have h := hall "a-/*x*/-b"
  revert h
  decide
